import Mathlib

/-!
Verification of the disaster-feed ingestion service.

This file gives a shallow embedding, in Lean 4, of the parts of the
TypeScript code base that the specification talks about:

* the Redis pub/sub wire format used by `publishNewEvent` /
  `parseNewEventMessage` (src/modules/ingest/app/source.registry.ts and
  src/infra/redis/pubsub.ts);
* the event-log read path `EventRepository.listEvents` /
  `EventRepository.listEventsSince` (src/modules/events/infra/event.repo.ts)
  together with the query DTO `schemaGetEventsQuery`;
* the write path `EventWriterService.appendEvent`
  (src/modules/events/app/event-writer.service.ts);
* the ingest worker `IngestWorkerService.processJob`
  (src/modules/ingest/app/ingest-worker.service.ts);
* the KMA micro-earthquake snapshot-hash adapter
  (src/modules/ingest/app/sources/kma-micro-earthquake.source.ts);
* the KMA PEWS binary early-warning adapter
  (src/modules/ingest/app/sources/kma-pews-earthquake.source.ts).

Pure functions are translated into Lean functions; effectful code is
translated into pure functions over explicit inputs (fetch responses,
insert outcomes, the wall clock) or into a step relation on an explicit
worker state.  JavaScript strings are modelled as Lean strings (sequences
of Unicode scalar values); machine numbers that the code only ever uses at
integral or small-decimal values are modelled as `Nat`/`Int`/`Rat`.
-/

namespace DisasterFeed

/-! ## JSON values

`JSON.parse` / `JSON.stringify` of the JavaScript runtime are modelled
concretely: values are trees, serialization and parsing are executable
functions defined below.  JSON numbers are modelled as exact decimal
rationals; the program under verification only ever serializes integral
numbers and never inspects a parsed number beyond its type tag. -/

inductive Json : Type where
  | null : Json
  | bool (b : Bool) : Json
  | num (q : Rat) : Json
  | str (s : String) : Json
  | arr (elems : List Json) : Json
  | obj (members : List (String × Json)) : Json

/-- Lower-case hexadecimal digit, as emitted by `JSON.stringify` in
`\u00XX` escapes. -/
def hexDigitChar (n : Nat) : Char :=
  if n < 10 then Char.ofNat (48 + n) else Char.ofNat (87 + n)

/-- Hexadecimal digit value (both cases accepted, as by `JSON.parse`). -/
def hexVal (c : Char) : Option Nat :=
  if 48 ≤ c.toNat ∧ c.toNat ≤ 57 then some (c.toNat - 48)
  else if 97 ≤ c.toNat ∧ c.toNat ≤ 102 then some (c.toNat - 87)
  else if 65 ≤ c.toNat ∧ c.toNat ≤ 70 then some (c.toNat - 55)
  else none

/-- The string-character escaping performed by `JSON.stringify`. -/
def jsonEscapeChar (c : Char) : List Char :=
  if c = '"' then ['\\', '"']
  else if c = '\\' then ['\\', '\\']
  else if c = '\x08' then ['\\', 'b']
  else if c = '\x0c' then ['\\', 'f']
  else if c = '\n' then ['\\', 'n']
  else if c = '\r' then ['\\', 'r']
  else if c = '\t' then ['\\', 't']
  else if c.toNat < 32 then
    ['\\', 'u', '0', '0', hexDigitChar (c.toNat / 16), hexDigitChar (c.toNat % 16)]
  else [c]

def jsonEscape (cs : List Char) : List Char :=
  cs.foldr (fun c acc => jsonEscapeChar c ++ acc) []

/-- `JSON.stringify` of a string value. -/
def jsonQuote (s : String) : String :=
  String.mk ('"' :: jsonEscape s.data ++ ['"'])

/-- Number serialization.  The program only serializes integral values
(phases 0–3), for which `JSON.stringify` prints the plain integer. -/
def jsNumToString (q : Rat) : String :=
  if q.den = 1 then toString q.num else toString q

def commaJoin : List String → String
  | [] => ""
  | [s] => s
  | s :: rest => s ++ "," ++ commaJoin rest

mutual

/-- `JSON.stringify` (no spacing argument, as used by the code). -/
def jsonStringify : Json → String
  | Json.null => "null"
  | Json.bool true => "true"
  | Json.bool false => "false"
  | Json.num q => jsNumToString q
  | Json.str s => jsonQuote s
  | Json.arr es => "[" ++ commaJoin (jsonStringifyList es) ++ "]"
  | Json.obj ms => "\x7b" ++ commaJoin (jsonStringifyMembers ms) ++ "\x7d"

def jsonStringifyList : List Json → List String
  | [] => []
  | j :: rest => jsonStringify j :: jsonStringifyList rest

def jsonStringifyMembers : List (String × Json) → List String
  | [] => []
  | (k, v) :: rest => (jsonQuote k ++ ":" ++ jsonStringify v) :: jsonStringifyMembers rest

end

/-- JSON insignificant whitespace (ECMA-404): tab, line feed, carriage
return, space. -/
def isJsonWs (c : Char) : Bool :=
  c = '\t' || c = '\n' || c = '\r' || c = ' '

def skipJsonWs : List Char → List Char
  | [] => []
  | c :: cs => if isJsonWs c then skipJsonWs cs else c :: cs

def consStr (ch : Char) : Option (List Char × List Char) → Option (List Char × List Char)
  | none => none
  | some (s, r) => some (ch :: s, r)

def hex4 (h1 h2 h3 h4 : Char) : Option Nat :=
  match hexVal h1, hexVal h2, hexVal h3, hexVal h4 with
  | some a, some b, some c, some d => some (((a * 16 + b) * 16 + c) * 16 + d)
  | _, _, _, _ => none

mutual

/-- Body of a JSON string literal, after the opening quote.  Returns the
decoded characters and the remaining input after the closing quote.
Surrogate-pair `\uXXXX\uXXXX` escapes are combined into one scalar value;
a lone surrogate escape is rejected (Lean strings, unlike JavaScript
strings, cannot hold lone surrogates).  The fuel argument only serves
structural termination; one unit is spent per recursive step and every
step consumes at least one input character, so any fuel above the input
length is enough. -/
def parseStringBody : Nat → List Char → Option (List Char × List Char)
  | 0, _ => none
  | _ + 1, [] => none
  | fuel + 1, c :: rest =>
    if c = '"' then some ([], rest)
    else if c = '\\' then parseStringEsc fuel rest
    else if c.toNat < 32 then none
    else consStr c (parseStringBody fuel rest)

/-- One escape sequence after a backslash inside a JSON string literal. -/
def parseStringEsc : Nat → List Char → Option (List Char × List Char)
  | 0, _ => none
  | _ + 1, [] => none
  | fuel + 1, e :: rest =>
    if e = '"' then consStr '"' (parseStringBody fuel rest)
    else if e = '\\' then consStr '\\' (parseStringBody fuel rest)
    else if e = '/' then consStr '/' (parseStringBody fuel rest)
    else if e = 'b' then consStr '\x08' (parseStringBody fuel rest)
    else if e = 'f' then consStr '\x0c' (parseStringBody fuel rest)
    else if e = 'n' then consStr '\n' (parseStringBody fuel rest)
    else if e = 'r' then consStr '\r' (parseStringBody fuel rest)
    else if e = 't' then consStr '\t' (parseStringBody fuel rest)
    else if e = 'u' then parseStringUEsc fuel rest
    else none

/-- The four hex digits of a `\uXXXX` escape. -/
def parseStringUEsc : Nat → List Char → Option (List Char × List Char)
  | 0, _ => none
  | fuel + 1, h1 :: h2 :: h3 :: h4 :: rest =>
    match hex4 h1 h2 h3 h4 with
    | none => none
    | some v =>
      if v < 0xd800 ∨ 0xdfff < v then consStr (Char.ofNat v) (parseStringBody fuel rest)
      else if v ≤ 0xdbff then parseStringLowSurr fuel v rest
      else none
  | _ + 1, _ => none

/-- Second half of a surrogate-pair escape. -/
def parseStringLowSurr : Nat → Nat → List Char → Option (List Char × List Char)
  | 0, _, _ => none
  | fuel + 1, v, b :: u :: l1 :: l2 :: l3 :: l4 :: rest =>
    if b = '\\' ∧ u = 'u' then
      match hex4 l1 l2 l3 l4 with
      | none => none
      | some w =>
        if 0xdc00 ≤ w ∧ w ≤ 0xdfff then
          consStr (Char.ofNat (0x10000 + (v - 0xd800) * 0x400 + (w - 0xdc00)))
            (parseStringBody fuel rest)
        else none
    else none
  | _ + 1, _, _ => none

end

def splitDigits : List Char → List Char × List Char
  | [] => ([], [])
  | c :: cs =>
    if 48 ≤ c.toNat ∧ c.toNat ≤ 57 then
      let (ds, rest) := splitDigits cs
      (c :: ds, rest)
    else ([], c :: cs)

def digitsToNat (ds : List Char) : Nat :=
  ds.foldl (fun acc c => acc * 10 + (c.toNat - 48)) 0

def headIs (ch : Char) : List Char → Bool
  | c :: _ => c = ch
  | [] => false

/-- JSON number grammar: `-? (0 | [1-9][0-9]*) (. [0-9]+)? ([eE][+-]?[0-9]+)?`,
evaluated as an exact decimal rational. -/
def parseJsonNumber (cs : List Char) : Option (Rat × List Char) :=
  let (neg, cs1) :=
    match cs with
    | c :: rest => if c = '-' then (true, rest) else (false, cs)
    | [] => (false, cs)
  let (intDs, cs2) := splitDigits cs1
  if intDs = [] then none
  else if intDs.length > 1 ∧ intDs.headI = '0' then none
  else
    let (fracDs, cs3) :=
      match cs2 with
      | c :: rest =>
        if c = '.' then
          let (ds, r) := splitDigits rest
          (ds, if ds = [] then [] else r)
        else ([], cs2)
      | [] => ([], cs2)
    if headIs '.' cs2 ∧ fracDs = [] then none
    else
      let baseVal : Rat :=
        (digitsToNat intDs : Rat) + (digitsToNat fracDs : Rat) / ((10 : Rat) ^ fracDs.length)
      let (expVal, cs4) :=
        match cs3 with
        | c :: rest =>
          if c = 'e' ∨ c = 'E' then
            let (expNeg, rest2) :=
              match rest with
              | d :: r2 => if d = '+' then (false, r2) else if d = '-' then (true, r2) else (false, rest)
              | [] => (false, rest)
            let (expDs, r3) := splitDigits rest2
            if expDs = [] then (none, cs3)
            else (some (expNeg, digitsToNat expDs), r3)
          else (none, cs3)
        | [] => (none, cs3)
      match expVal with
      | none =>
        if headIs 'e' cs3 ∨ headIs 'E' cs3 then none
        else some ((if neg then -baseVal else baseVal), cs4)
      | some (expNeg, e) =>
        let scaled := if expNeg then baseVal / (10 : Rat) ^ e else baseVal * (10 : Rat) ^ e
        some ((if neg then -scaled else scaled), cs4)

mutual

/-- Recursive-descent JSON value parser (fuelled for termination; the
top-level entry point supplies more fuel than any input can consume,
because every recursive call strictly consumes input). -/
def parseJsonValue : Nat → List Char → Option (Json × List Char)
  | 0, _ => none
  | fuel + 1, cs0 =>
    match skipJsonWs cs0 with
    | [] => none
    | c :: cs =>
      if c = '\x7b' then
        match skipJsonWs cs with
        | [] => none
        | d :: cs2 =>
          if d = '\x7d' then some (Json.obj [], cs2)
          else
            match parseJsonMembers fuel (d :: cs2) with
            | none => none
            | some (ms, r) => some (Json.obj ms, r)
      else if c = '[' then
        match skipJsonWs cs with
        | [] => none
        | d :: cs2 =>
          if d = ']' then some (Json.arr [], cs2)
          else
            match parseJsonElems fuel (d :: cs2) with
            | none => none
            | some (es, r) => some (Json.arr es, r)
      else if c = '"' then
        match parseStringBody (fuel + 1) cs with
        | none => none
        | some (s, r) => some (Json.str (String.mk s), r)
      else if c = 't' then
        match cs with
        | 'r' :: 'u' :: 'e' :: r => some (Json.bool true, r)
        | _ => none
      else if c = 'f' then
        match cs with
        | 'a' :: 'l' :: 's' :: 'e' :: r => some (Json.bool false, r)
        | _ => none
      else if c = 'n' then
        match cs with
        | 'u' :: 'l' :: 'l' :: r => some (Json.null, r)
        | _ => none
      else
        match parseJsonNumber (c :: cs) with
        | none => none
        | some (q, r) => some (Json.num q, r)

def parseJsonMembers : Nat → List Char → Option (List (String × Json) × List Char)
  | 0, _ => none
  | fuel + 1, cs0 =>
    match skipJsonWs cs0 with
    | [] => none
    | c :: cs =>
      if c = '"' then
        match parseStringBody (fuel + 1) cs with
        | none => none
        | some (key, rest2) =>
          match skipJsonWs rest2 with
          | [] => none
          | d :: rest3 =>
            if d = ':' then
              match parseJsonValue fuel rest3 with
              | none => none
              | some (v, rest4) =>
                match skipJsonWs rest4 with
                | [] => none
                | d2 :: rest5 =>
                  if d2 = ',' then
                    match parseJsonMembers fuel rest5 with
                    | none => none
                    | some (ms, r) => some ((String.mk key, v) :: ms, r)
                  else if d2 = '\x7d' then some ([(String.mk key, v)], rest5)
                  else none
            else none
      else none

def parseJsonElems : Nat → List Char → Option (List Json × List Char)
  | 0, _ => none
  | fuel + 1, cs0 =>
    match parseJsonValue fuel cs0 with
    | none => none
    | some (v, rest) =>
      match skipJsonWs rest with
      | [] => none
      | d :: rest2 =>
        if d = ',' then
          match parseJsonElems fuel rest2 with
          | none => none
          | some (es, r) => some (v :: es, r)
        else if d = ']' then some ([v], rest2)
        else none

end

/-- `JSON.parse`: parse one value, allow trailing whitespace, reject
trailing garbage.  `none` models a thrown `SyntaxError`. -/
def jsonParse (s : String) : Option Json :=
  match parseJsonValue (2 * s.length + 2) s.data with
  | none => none
  | some (v, rest) => if skipJsonWs rest = [] then some v else none

/-- JavaScript property lookup on a parsed JSON value: objects with
duplicate keys keep the last occurrence (`JSON.parse` semantics); name
lookup on an array or primitive yields `undefined` (`none`). -/
def jsGetField (j : Json) (key : String) : Option Json :=
  match j with
  | Json.obj ms => ((ms.filter (fun m => m.1 = key)).getLast?).map (fun m => m.2)
  | _ => none

/-! ## Event-bus wire format

`src/infra/redis/pubsub.ts` (cited through
src/modules/ingest/app/source.registry.ts lines 99–145). -/

def NEW_EVENTS_CHANNEL : String := "events:new"

/-- `publishNewEvent`: the (channel, payload) pair handed to
`redis.publish`, with payload `JSON.stringify({ eventId })`. -/
def publishNewEvent (eventId : String) : String × String :=
  (NEW_EVENTS_CHANNEL, jsonStringify (Json.obj [("eventId", Json.str eventId)]))

/-- The payload component of `publishNewEvent`. -/
def publishNewEventMessage (eventId : String) : String :=
  (publishNewEvent eventId).2

/-- `parseNewEventMessage`: `JSON.parse` the message (`none` on throw),
require a truthy value of type `object`, then require a string `eventId`
property. -/
def parseNewEventMessage (message : String) : Option String :=
  match jsonParse message with
  | none => none
  | some j =>
    match j with
    | Json.arr _ =>
      match jsGetField j "eventId" with
      | some (Json.str s) => some s
      | _ => none
    | Json.obj _ =>
      match jsGetField j "eventId" with
      | some (Json.str s) => some s
      | _ => none
    | _ => none

/-- `parseNewEventMessage` logs a warning exactly when `JSON.parse`
throws; a well-formed JSON value of the wrong shape is dropped silently. -/
def parseNewEventMessageWarns (message : String) : Bool :=
  (jsonParse message).isNone

/-- The `message` listener installed by `subscribeNewEvents`: ignore other
channels, drop undecodable messages, otherwise hand the event id to the
handler.  The result is the id delivered to the handler, if any. -/
def onNewEventsMessage (channel message : String) : Option String :=
  if channel ≠ NEW_EVENTS_CHANNEL then none
  else parseNewEventMessage message

/-! ## Event log read path

`EventRepository` (src/modules/events/infra/event.repo.ts) reads the
`events` table through Kysely.  The table is modelled as a list of rows in
their underlying (heap/insertion) order; `ORDER BY <key>` with `LIMIT` is
modelled as a stable insertion sort on the listed key followed by `take` —
SQL fixes only the listed sort keys and leaves ties in an unspecified
order, which the stable sort makes concrete as the underlying order.
`TIMESTAMPTZ` instants are modelled as integers ordered like timestamps. -/

/-- `EventSources` enum (src/modules/events/domain/event.enums.ts). -/
inductive EventSources : Type where
  | safekoreaSms
  | kmaMicroEarthquake
  | kmaPewsEarthquake
  | nfdsFireDispatch
  | kmaWeatherWarning
  | uticTrafficIncident
  | airkoreaPmWarning
  | airkoreaO3Warning
  | forestFireInfo
deriving DecidableEq, Fintype

/-- The numeric value of each `EventSources` member. -/
def EventSources.code : EventSources → Nat
  | .safekoreaSms => 1
  | .kmaMicroEarthquake => 2
  | .kmaPewsEarthquake => 3
  | .nfdsFireDispatch => 4
  | .kmaWeatherWarning => 5
  | .uticTrafficIncident => 6
  | .airkoreaPmWarning => 7
  | .airkoreaO3Warning => 8
  | .forestFireInfo => 9

/-- One persisted row of the `events` table.  `kind` and `level` are the
small-integer enum tags. -/
structure EventRow : Type where
  id : String
  source : EventSources
  kind : Nat
  title : String
  body : Option String
  fetchedAt : Int
  occurredAt : Option Int
  regionText : Option String
  level : Nat
  payload : Option Json

/-- `ListEventsSinceParams` (event-repo.interface.ts). -/
structure ListEventsSinceParams : Type where
  since : Int
  limit : Option Nat

/-- `ListEventsParams` (event-repo.interface.ts).  The interface types
`source?: EventSources`, but the validated request path reaches this call
with any integer: `schemaGetEventsQuery` checks only
`z.coerce.number().int().optional()` and `EventService.listEvents`
forwards `dto.source` unchanged (numbers are assignable to the numeric
enum), so `source` is modelled as an arbitrary optional integer.  Rows,
written through the typed write path, carry enum codes. -/
structure ListEventsParams : Type where
  limit : Option Nat
  kind : Option Nat
  source : Option Int

/-- The JavaScript truthiness test `if (params.source)` on the optional
validated number: `undefined` and `0` are falsy, every other integer
truthy. -/
def jsTruthySource : Option Int → Bool
  | none => false
  | some v => v ≠ 0

/-- `EventRepository.listEvents`: `ORDER BY fetched_at DESC LIMIT (limit ?? 50)`
plus a `kind = ?` predicate when `params.kind !== undefined` and a
`source = ?` predicate when `params.source` is truthy (rows compare by
their stored numeric code). -/
def listEvents (events : List EventRow) (params : ListEventsParams) : List EventRow :=
  let limit := params.limit.getD 50
  let kindFiltered :=
    if params.kind.isSome then events.filter (fun r => some r.kind = params.kind) else events
  let srcFiltered :=
    if jsTruthySource params.source then
      kindFiltered.filter (fun r => some ((r.source.code : Int)) = params.source)
    else kindFiltered
  (srcFiltered.insertionSort (fun a b => b.fetchedAt ≤ a.fetchedAt)).take limit

/-- `EventRepository.listEventsSince`: `WHERE fetched_at > since ORDER BY
fetched_at ASC LIMIT (limit ?? 500)`.  No secondary sort key is given. -/
def listEventsSince (events : List EventRow) (params : ListEventsSinceParams) : List EventRow :=
  let limit := params.limit.getD 500
  ((events.filter (fun r => decide (params.since < r.fetchedAt))).insertionSort
      (fun a b => a.fetchedAt ≤ b.fetchedAt)).take limit

/-- `schemaGetEventsQuery` (get-events-query.dto.ts): `limit` must be a
positive integer at most 200, `kind` and `source` plain integers; all
three optional.  Modelled on already-coerced numeric inputs. -/
def schemaGetEventsQuery (limit kind source : Option Int) : Bool :=
  (match limit with
   | none => true
   | some v => decide (0 < v) && decide (v ≤ 200))
  && (match kind with
      | none => true
      | some _ => true)
  && (match source with
      | none => true
      | some _ => true)

/-- Two rows with equal `fetched_at` whose ids are in descending order in
the table, used to exercise the tie behaviour of `listEventsSince`. -/
def tieRowB : EventRow :=
  { id := "b", source := .safekoreaSms, kind := 1, title := "t1", body := none,
    fetchedAt := 0, occurredAt := none, regionText := none, level := 1, payload := none }

def tieRowA : EventRow :=
  { id := "a", source := .safekoreaSms, kind := 1, title := "t2", body := none,
    fetchedAt := 0, occurredAt := none, regionText := none, level := 1, payload := none }

/-! ## Event writer

`EventWriterService.appendEvent`: insert through the repository, then
best-effort publish on the bus.  The database outcome and the publish
outcome are inputs; the performed effects are returned as a trace. -/

inductive WriterEff : Type where
  | insertAttempt : WriterEff
  | publish (channel payload : String) : WriterEff
  | logPublishWarn : WriterEff
deriving DecidableEq

/-- `appendEvent`: `insertResult` is what `eventRepository.insertEvent`
does (`ok` carries the materialized row the database returned, `error` a
thrown failure); `publishOk` is whether `publishNewEvent` succeeds.  The
first component lists the performed effects in order, the second is the
return/throw outcome. -/
def appendEvent (insertResult : Except String EventRow) (publishOk : Bool) :
    List WriterEff × Except String EventRow :=
  match insertResult with
  | Except.error e => ([WriterEff.insertAttempt], Except.error e)
  | Except.ok ev =>
    let pub := publishNewEvent ev.id
    if publishOk then
      ([WriterEff.insertAttempt, WriterEff.publish pub.1 pub.2], Except.ok ev)
    else
      ([WriterEff.insertAttempt, WriterEff.publish pub.1 pub.2, WriterEff.logPublishWarn],
        Except.ok ev)

/-! ## Ingest worker

`IngestWorkerService.processJob`: registry lookup, single-flight guard on
the in-memory `runningSourceIds` set, checkpoint load, adapter run, one
`insertEvent` per returned event (each returns a success flag, never
throws), and a checkpoint upsert only when every insert succeeded.  The
guard is released in a `finally`, so also when the adapter run throws. -/

/-- The partially-populated event an adapter returns
(source.interface.ts). -/
structure SourceEvent : Type where
  kind : Nat
  title : String
  body : Option String
  occurredAt : Option String
  regionText : Option String
  level : Nat
  payload : Option Json

/-- The `for (const event of events)` loop of `processJob`: the i-th
insert attempt succeeds iff `insertOk i`; returns the successfully
persisted events in order and the final `allInserted` flag.  The loop
never stops early. -/
def insertLoop (insertOk : Nat → Bool) : Nat → List SourceEvent → List SourceEvent × Bool
  | _, [] => ([], true)
  | i, e :: rest =>
    let tail := insertLoop insertOk (i + 1) rest
    (if insertOk i then e :: tail.1 else tail.1, insertOk i && tail.2)

/-- The environment of one `processJob` call: whether the registry has an
adapter for the job's source id, the worker's current `runningSourceIds`,
the stored checkpoint state, the adapter run outcome (`error` = the
adapter threw), and the per-event insert outcomes. -/
structure IngestJobInput : Type where
  adapterPresent : Bool
  running : Finset EventSources
  checkpoint : Option String
  runResult : Except Unit (List SourceEvent × Option String)
  insertOk : Nat → Bool

/-- The observable outcome of one `processJob` call. -/
structure IngestJobResult : Type where
  threw : Bool
  running : Finset EventSources
  checkpoint : Option String
  upserted : Option (Option String)
  inserted : List SourceEvent
  ranAdapter : Bool

/-- Early return of `processJob` (adapter missing, or single-flight skip):
log and return without touching anything. -/
def ingestNoop (inp : IngestJobInput) : IngestJobResult :=
  { threw := false, running := inp.running, checkpoint := inp.checkpoint,
    upserted := none, inserted := [], ranAdapter := false }

/-- `IngestWorkerService.processJob`. -/
def processJob (sourceId : EventSources) (inp : IngestJobInput) : IngestJobResult :=
  if ¬ inp.adapterPresent then ingestNoop inp
  else if sourceId ∈ inp.running then ingestNoop inp
  else
    let running1 := insert sourceId inp.running
    match inp.runResult with
    | Except.error _ =>
      { threw := true, running := running1.erase sourceId, checkpoint := inp.checkpoint,
        upserted := none, inserted := [], ranAdapter := true }
    | Except.ok (events, nextState) =>
      let loop := insertLoop inp.insertOk 0 events
      { threw := false, running := running1.erase sourceId,
        checkpoint := if loop.2 then nextState else inp.checkpoint,
        upserted := if loop.2 then some nextState else none,
        inserted := loop.1, ranAdapter := true }

/-! ## Worker concurrency skeleton

The single-flight claim is temporal; the guard manipulation of
`processJob` is modelled as a transition system over the worker's state:
per job, the guard check plus `runningSourceIds.add` happen in one
synchronous (atomic) step at lines 64–71, the adapter run spans an
arbitrary interval, and the `finally` delete is the exit step. -/

inductive JobPhase : Type where
  | pending : JobPhase
  | executing : JobPhase
  | skipped : JobPhase
  | finished (threw : Bool) : JobPhase
deriving DecidableEq

structure WorkerState : Type where
  running : Finset EventSources
  jobs : List (EventSources × JobPhase)

/-- How many jobs for source `s` are currently inside the adapter run. -/
def execCount (st : WorkerState) (s : EventSources) : Nat :=
  st.jobs.countP (fun j => decide (j.1 = s ∧ j.2 = JobPhase.executing))

/-- One scheduling step of the worker:
`enter` = guard check passes and the job starts running the adapter;
`skip` = guard check fails (`runningSourceIds.has`), job returns;
`finish` = the run ends (normally or by throwing) and the `finally`
deletes the source id from the guard set. -/
inductive WorkerStep : WorkerState → WorkerState → Prop where
  | enter (st : WorkerState) (i : Nat) (s : EventSources)
      (hj : st.jobs[i]? = some (s, JobPhase.pending)) (hfree : s ∉ st.running) :
      WorkerStep st ⟨insert s st.running, st.jobs.set i (s, JobPhase.executing)⟩
  | skip (st : WorkerState) (i : Nat) (s : EventSources)
      (hj : st.jobs[i]? = some (s, JobPhase.pending)) (hbusy : s ∈ st.running) :
      WorkerStep st ⟨st.running, st.jobs.set i (s, JobPhase.skipped)⟩
  | finish (st : WorkerState) (i : Nat) (s : EventSources) (threw : Bool)
      (hj : st.jobs[i]? = some (s, JobPhase.executing)) :
      WorkerStep st ⟨st.running.erase s, st.jobs.set i (s, JobPhase.finished threw)⟩

/-- The coupling invariant: at most one in-flight run per source, and an
in-flight run holds the guard. -/
def WorkerInv (st : WorkerState) : Prop :=
  ∀ s : EventSources, execCount st s ≤ (if s ∈ st.running then 1 else 0)

/-- A concrete adapter event used to witness worker theorems. -/
def sampleSourceEvent : SourceEvent :=
  { kind := 2, title := "t", body := none, occurredAt := none,
    regionText := none, level := 1, payload := none }

/-! ## Shared JavaScript text and date helpers

The character class of the JavaScript regular-expression `\s`, of
`String.prototype.trim` and of `parseFloat` leading-whitespace skipping:
WhiteSpace plus LineTerminator. -/

def isJsWs (c : Char) : Bool :=
  c.toNat = 0x09 || c.toNat = 0x0a || c.toNat = 0x0b || c.toNat = 0x0c || c.toNat = 0x0d
  || c.toNat = 0x20 || c.toNat = 0xa0 || c.toNat = 0x1680
  || (0x2000 ≤ c.toNat && c.toNat ≤ 0x200a)
  || c.toNat = 0x2028 || c.toNat = 0x2029 || c.toNat = 0x202f || c.toNat = 0x205f
  || c.toNat = 0x3000 || c.toNat = 0xfeff

/-- `String.prototype.trim`. -/
def jsTrim (s : String) : String :=
  String.mk (((s.data.dropWhile isJsWs).reverse.dropWhile isJsWs).reverse)

/-- `.replace(/\s+/g, ' ')`: collapse every whitespace run to one space. -/
def collapseWsAux : Bool → List Char → List Char
  | _, [] => []
  | prevWs, c :: rest =>
    if isJsWs c then
      if prevWs then collapseWsAux true rest
      else ' ' :: collapseWsAux true rest
    else c :: collapseWsAux false rest

def collapseWs (s : String) : String :=
  String.mk (collapseWsAux false s.data)

def isDigitChar (c : Char) : Bool :=
  48 ≤ c.toNat && c.toNat ≤ 57

/-- Truncation toward zero, as applied by the `Date` constructor to a
non-integral millisecond value (TimeClip / ToIntegerOrInfinity). -/
def jsTrunc (q : Rat) : Int :=
  if 0 ≤ q then q.floor else q.ceil

/-- Days since 1970-01-01 to civil date (proleptic Gregorian), the inverse
pair used to model the JavaScript `Date` UTC accessors and
`Date.UTC`-style construction. -/
def civilFromDays (days : Int) : Int × Nat × Nat :=
  let z := days + 719468
  let era := Int.fdiv z 146097
  let doe := (z - era * 146097).toNat
  let yoe := (doe - doe / 1460 + doe / 36524 - doe / 146096) / 365
  let doy := doe - (365 * yoe + yoe / 4 - yoe / 100)
  let mp := (5 * doy + 2) / 153
  let d := doy - (153 * mp + 2) / 5 + 1
  let m := if mp < 10 then mp + 3 else mp - 9
  (era * 400 + yoe + (if m ≤ 2 then 1 else 0), m, d)

def daysFromCivil (y : Int) (m d : Nat) : Int :=
  let y' := y - (if m ≤ 2 then 1 else 0)
  let era := Int.fdiv y' 400
  let yoe := (y' - era * 400).toNat
  let doy := (153 * (if 2 < m then m - 3 else m + 9) + 2) / 5 + d - 1
  let doe := yoe * 365 + yoe / 4 - yoe / 100 + doy
  era * 146097 + (doe : Int) - 719468

def padNum (width n : Nat) : String :=
  let s := toString n
  String.mk (List.replicate (width - s.length) '0') ++ s

/-- `toISOString` year field: four digits for 0..9999, otherwise the
expanded ±YYYYYY form. -/
def isoYearString (y : Int) : String :=
  if 0 ≤ y ∧ y ≤ 9999 then padNum 4 y.toNat
  else if y < 0 then "-" ++ padNum 6 (-y).toNat
  else "+" ++ padNum 6 y.toNat

/-- `new Date(ms).toISOString()`; `none` models the invalid-date case
(|ms| beyond ±8.64e15). -/
def epochMsToIso (ms : Int) : Option String :=
  if ms < -8640000000000000 ∨ 8640000000000000 < ms then none
  else
    let days := Int.fdiv ms 86400000
    let msod := (ms - days * 86400000).toNat
    let (y, m, d) := civilFromDays days
    some (isoYearString y ++ "-" ++ padNum 2 m ++ "-" ++ padNum 2 d
      ++ "T" ++ padNum 2 (msod / 3600000) ++ ":" ++ padNum 2 (msod % 3600000 / 60000)
      ++ ":" ++ padNum 2 (msod % 60000 / 1000) ++ "." ++ padNum 3 (msod % 1000) ++ "Z")

/-- `formatUtcTimestamp`: the `YYYYMMDDhhmmss` string the PEWS server
expects, from the `getUTC*` fields of `new Date(ms)`. -/
def formatUtcTimestamp (ms : Int) : String :=
  let days := Int.fdiv ms 86400000
  let msod := (ms - days * 86400000).toNat
  let (y, m, d) := civilFromDays days
  toString y ++ padNum 2 m ++ padNum 2 d
    ++ padNum 2 (msod / 3600000) ++ padNum 2 (msod % 3600000 / 60000)
    ++ padNum 2 (msod % 60000 / 1000)

def daysInMonth (y : Int) (m : Nat) : Nat :=
  if m = 2 then
    if Int.emod y 4 = 0 ∧ (Int.emod y 100 ≠ 0 ∨ Int.emod y 400 = 0) then 29 else 28
  else if m = 4 ∨ m = 6 ∨ m = 9 ∨ m = 11 then 30
  else 31

/-- Time value of a civil date-time with a UTC offset in minutes,
validating fields the way V8 validates a conforming ISO string (including
the `24:00:00.000` end-of-day form); `none` models an invalid date. -/
def isoPartsToMs (y : Int) (mo d h mi s ms : Nat) (offsetMin : Int) : Option Int :=
  if 1 ≤ mo ∧ mo ≤ 12 ∧ 1 ≤ d ∧ d ≤ daysInMonth y mo
      ∧ (h < 24 ∨ (h = 24 ∧ mi = 0 ∧ s = 0 ∧ ms = 0)) ∧ mi ≤ 59 ∧ s ≤ 59 ∧ ms ≤ 999 then
    let t := daysFromCivil y mo d * 86400000
      + (h * 3600000 + mi * 60000 + s * 1000 + ms : Nat) - offsetMin * 60000
    if t < -8640000000000000 ∨ 8640000000000000 < t then none else some t
  else none

/-! ## KMA PEWS binary early-warning adapter

src/modules/ingest/app/sources/kma-pews-earthquake.source.ts, modelled for
the default (non-simulation) instance: `headerLengthBytes = 4`,
`simMode = false`.  The wall clock (`Date.now()`), the fetch response and
the implementation-defined `Date.parse` of the `Date` response header are
explicit inputs. -/

/-- `bytesToBitString`: each byte printed as 8 binary digits, most
significant first; the character '1' is modelled as `true`. -/
def byteToBits (b : Fin 256) : List Bool :=
  [b.val.testBit 7, b.val.testBit 6, b.val.testBit 5, b.val.testBit 4,
   b.val.testBit 3, b.val.testBit 2, b.val.testBit 1, b.val.testBit 0]

def bytesToBitString (bytes : List (Fin 256)) : List Bool :=
  (bytes.map byteToBits).flatten

/-- `Number.parseInt(slice, 2)` on a bit string. -/
def bitsToNat (bits : List Bool) : Nat :=
  bits.foldl (fun acc b => 2 * acc + (if b then 1 else 0)) 0

/-- `parsePhase`: header bits decide the phase through the source's
sequential chain — bit 1 = 0 ⇒ 1; bit 1 = 1 and bit 2 = 0 ⇒ 2;
bit 2 = 1 ⇒ 3. -/
def parsePhase (bytes : List (Fin 256)) (headerLengthBytes : Nat) : Nat :=
  let headerBits := bytesToBitString (bytes.take headerLengthBytes)
  if headerBits.length < 3 then 0
  else if headerBits.getD 1 false = false then 1
  else if headerBits.getD 1 false = true ∧ headerBits.getD 2 false = false then 2
  else if headerBits.getD 2 false = true then 3
  else 0

/-- `parseBitsInt`: integer value of the bit range `[start, stop)`. -/
def parseBitsInt (bits : List Bool) (start stop : Nat) : Option Nat :=
  if bits.length < stop then none
  else
    let slice := (bits.drop start).take (stop - start)
    if slice = [] then none
    else some (bitsToNat slice)

def AREA_NAMES : List String :=
  ["서울", "부산", "대구", "인천", "광주", "대전", "울산", "세종", "경기",
   "강원", "충북", "충남", "전북", "전남", "경북", "경남", "제주"]

/-- `parseMaxAreas`: empty or all-ones masks mean no data; otherwise each
set bit selects the region name with the same index. -/
def parseMaxAreas (bits : List Bool) : List String :=
  if bits.isEmpty || bits.all (fun b => b) then []
  else (bits.zip AREA_NAMES).filterMap (fun p => if p.1 then some p.2 else none)

/-- WHATWG `TextDecoder('utf-8')`: byte sequences that are not valid
UTF-8 produce U+FFFD replacement characters and decoding resumes at the
offending byte. -/
def utf8Decode : List Nat → List Char
  | [] => []
  | b :: rest =>
    if b < 0x80 then Char.ofNat b :: utf8Decode rest
    else if b < 0xc2 then '�' :: utf8Decode rest
    else if b ≤ 0xdf then
      match rest with
      | c1 :: rest2 =>
        if 0x80 ≤ c1 ∧ c1 ≤ 0xbf then
          Char.ofNat ((b - 0xc0) * 64 + (c1 - 0x80)) :: utf8Decode rest2
        else '�' :: utf8Decode (c1 :: rest2)
      | [] => ['�']
    else if b ≤ 0xef then
      let lo1 := if b = 0xe0 then 0xa0 else 0x80
      let hi1 := if b = 0xed then 0x9f else 0xbf
      match rest with
      | c1 :: rest2 =>
        if lo1 ≤ c1 ∧ c1 ≤ hi1 then
          match rest2 with
          | c2 :: rest3 =>
            if 0x80 ≤ c2 ∧ c2 ≤ 0xbf then
              Char.ofNat ((b - 0xe0) * 4096 + (c1 - 0x80) * 64 + (c2 - 0x80)) :: utf8Decode rest3
            else '�' :: utf8Decode (c2 :: rest3)
          | [] => ['�']
        else '�' :: utf8Decode (c1 :: rest2)
      | [] => ['�']
    else if b ≤ 0xf4 then
      let lo1 := if b = 0xf0 then 0x90 else 0x80
      let hi1 := if b = 0xf4 then 0x8f else 0xbf
      match rest with
      | c1 :: rest2 =>
        if lo1 ≤ c1 ∧ c1 ≤ hi1 then
          match rest2 with
          | c2 :: rest3 =>
            if 0x80 ≤ c2 ∧ c2 ≤ 0xbf then
              match rest3 with
              | c3 :: rest4 =>
                if 0x80 ≤ c3 ∧ c3 ≤ 0xbf then
                  Char.ofNat ((b - 0xf0) * 262144 + (c1 - 0x80) * 4096
                    + (c2 - 0x80) * 64 + (c3 - 0x80)) :: utf8Decode rest4
                else '�' :: utf8Decode (c3 :: rest4)
              | [] => ['�']
            else '�' :: utf8Decode (c2 :: rest3)
          | [] => ['�']
        else '�' :: utf8Decode (c1 :: rest2)
      | [] => ['�']
    else '�' :: utf8Decode rest
termination_by l => l.length
decreasing_by all_goals (simp; try omega)

/-- `decodeURIComponent` (ECMA Decode): percent escapes must form valid
UTF-8; `none` models a thrown `URIError`. -/
def uriDecode : List Char → Option (List Char)
  | [] => some []
  | '%' :: h :: l :: rest =>
    match hexVal h, hexVal l with
    | some hv, some lv =>
      let b := hv * 16 + lv
      if b < 0x80 then (uriDecode rest).map (fun cs => Char.ofNat b :: cs)
      else if 0xc2 ≤ b ∧ b ≤ 0xdf then
        match rest with
        | '%' :: h1 :: l1 :: rest2 =>
          match hexVal h1, hexVal l1 with
          | some hv1, some lv1 =>
            let b1 := hv1 * 16 + lv1
            if 0x80 ≤ b1 ∧ b1 ≤ 0xbf then
              (uriDecode rest2).map (fun cs => Char.ofNat ((b - 0xc0) * 64 + (b1 - 0x80)) :: cs)
            else none
          | _, _ => none
        | _ => none
      else if 0xe0 ≤ b ∧ b ≤ 0xef then
        match rest with
        | '%' :: h1 :: l1 :: '%' :: h2 :: l2 :: rest2 =>
          match hexVal h1, hexVal l1, hexVal h2, hexVal l2 with
          | some hv1, some lv1, some hv2, some lv2 =>
            let b1 := hv1 * 16 + lv1
            let b2 := hv2 * 16 + lv2
            let lo1 := if b = 0xe0 then 0xa0 else 0x80
            let hi1 := if b = 0xed then 0x9f else 0xbf
            if lo1 ≤ b1 ∧ b1 ≤ hi1 ∧ 0x80 ≤ b2 ∧ b2 ≤ 0xbf then
              (uriDecode rest2).map (fun cs =>
                Char.ofNat ((b - 0xe0) * 4096 + (b1 - 0x80) * 64 + (b2 - 0x80)) :: cs)
            else none
          | _, _, _, _ => none
        | _ => none
      else if 0xf0 ≤ b ∧ b ≤ 0xf4 then
        match rest with
        | '%' :: h1 :: l1 :: '%' :: h2 :: l2 :: '%' :: h3 :: l3 :: rest2 =>
          match hexVal h1, hexVal l1, hexVal h2, hexVal l2, hexVal h3, hexVal l3 with
          | some hv1, some lv1, some hv2, some lv2, some hv3, some lv3 =>
            let b1 := hv1 * 16 + lv1
            let b2 := hv2 * 16 + lv2
            let b3 := hv3 * 16 + lv3
            let lo1 := if b = 0xf0 then 0x90 else 0x80
            let hi1 := if b = 0xf4 then 0x8f else 0xbf
            if lo1 ≤ b1 ∧ b1 ≤ hi1 ∧ 0x80 ≤ b2 ∧ b2 ≤ 0xbf ∧ 0x80 ≤ b3 ∧ b3 ≤ 0xbf then
              (uriDecode rest2).map (fun cs =>
                Char.ofNat ((b - 0xf0) * 262144 + (b1 - 0x80) * 4096
                  + (b2 - 0x80) * 64 + (b3 - 0x80)) :: cs)
            else none
          | _, _, _, _, _, _ => none
        | _ => none
      else none
    | _, _ => none
  | '%' :: _ => none
  | c :: rest => (uriDecode rest).map (fun cs => c :: cs)

/-- `decodeInfoText`: UTF-8-decode the 60 text bytes, strip NULs, trim;
then '+' to space, best-effort `decodeURIComponent`, whitespace collapse
and trim. -/
def decodeInfoText (bytes : List (Fin 256)) : Option String :=
  let raw := jsTrim (String.mk ((utf8Decode (bytes.map (fun b => b.val))).filter
    (fun c => c.toNat ≠ 0)))
  if raw = "" then none
  else
    let normalized := String.mk (raw.data.map (fun c => if c = '+' then ' ' else c))
    let decoded :=
      match uriDecode normalized.data with
      | some cs => String.mk cs
      | none => normalized
    let cleaned := jsTrim (collapseWs decoded)
    if cleaned.length > 0 then some cleaned else none

/-- `parseUnixTimeToIso`: pick, among the raw seconds interpreted as UTC,
KST-shifted or reverse-shifted, the candidate closest to now (first wins
ties); fall back to the raw interpretation when even the best is more than
30 days away. -/
def parseUnixTimeToIso (now : Int) (seconds : Int) : Option String :=
  let candidates := [seconds * 1000, (seconds - 32400) * 1000, (seconds + 32400) * 1000]
  let init := (seconds * 1000, (seconds * 1000 - now).natAbs)
  let best2 := (candidates.drop 1).foldl
    (fun acc cand => if (cand - now).natAbs < acc.2 then (cand, (cand - now).natAbs) else acc)
    init
  let best := if 2592000000 < best2.2 then seconds * 1000 else best2.1
  epochMsToIso best

structure ParsedEarthquakeInfo : Type where
  eqkId : Option String
  magnitude : Option Rat
  depthKm : Option Rat
  intensity : Option Nat
  maxAreas : List String
  occurredAt : Option String
  infoText : Option String
  latitude : Option Rat
  longitude : Option Rat
  rawUnixTime : Option Nat

/-- `parseEarthquakeInfo`: decode the 75-byte info block at the end of the
frame — 15 bit-packed bytes (120 bits) followed by 60 text bytes read from
`infoBlock.subarray(INFO_BITS_BYTES)`. -/
def parseEarthquakeInfo (now : Int) (bytes : List (Fin 256)) : Option ParsedEarthquakeInfo :=
  if bytes.length < 75 then none
  else
    let infoBlock := bytes.drop (bytes.length - 75)
    let infoBits := bytesToBitString (infoBlock.take 15)
    if infoBits.length < 116 then none
    else
      let latRaw := parseBitsInt infoBits 0 10
      let lonRaw := parseBitsInt infoBits 10 20
      let magRaw := parseBitsInt infoBits 20 27
      let depRaw := parseBitsInt infoBits 27 37
      let unixRaw := parseBitsInt infoBits 37 69
      let eqkIdRaw := parseBitsInt infoBits 69 95
      let intensityRaw := parseBitsInt infoBits 95 99
      let maxAreaBits := (infoBits.drop 99).take 17
      some
        { eqkId := eqkIdRaw.map (fun r => "20" ++ toString r),
          magnitude := magRaw.map (fun r => (r : Rat) / 10),
          depthKm := depRaw.map (fun r => (r : Rat) / 10),
          intensity := intensityRaw,
          maxAreas := parseMaxAreas maxAreaBits,
          occurredAt := unixRaw.bind (fun r => parseUnixTimeToIso now (r : Int)),
          infoText := decodeInfoText (infoBlock.drop 15),
          latitude := latRaw.map (fun r => 30 + (r : Rat) / 100),
          longitude := lonRaw.map (fun r => 124 + (r : Rat) / 100),
          rawUnixTime := unixRaw }

/-- Exactly `n` leading decimal digits. -/
def takeDigitsN (n : Nat) (cs : List Char) : Option (Nat × List Char) :=
  let pre := cs.take n
  if pre.length = n ∧ pre.all isDigitChar then some (digitsToNat pre, cs.drop n)
  else none

/-- `new Date(<string>).getTime()` on the ECMA Date Time String Format
profile (the only string form the code constructs or re-parses).  A
conforming date-time without an offset is taken as UTC, modelling a host
running in the UTC zone. -/
def parseEcmaIso (s : String) : Option Int :=
  let cs := s.data
  let yearParsed : Option (Int × List Char) :=
    match cs with
    | '+' :: r => (takeDigitsN 6 r).map (fun p => ((p.1 : Int), p.2))
    | '-' :: r => (takeDigitsN 6 r).map (fun p => (-(p.1 : Int), p.2))
    | _ => (takeDigitsN 4 cs).map (fun p => ((p.1 : Int), p.2))
  match yearParsed with
  | none => none
  | some (y, cs1) =>
    let moParsed : Option (Nat × List Char) :=
      match cs1 with
      | '-' :: r => takeDigitsN 2 r
      | _ => some (1, cs1)
    match moParsed with
    | none => none
    | some (mo, cs2) =>
      let dParsed : Option (Nat × List Char) :=
        match cs2 with
        | '-' :: r =>
          if cs1.headI = '-' then takeDigitsN 2 r else none
        | _ => some (1, cs2)
      match dParsed with
      | none => none
      | some (d, cs3) =>
        match cs3 with
        | [] => isoPartsToMs y mo d 0 0 0 0 0
        | 'T' :: r =>
          match takeDigitsN 2 r with
          | none => none
          | some (h, r1) =>
            match r1 with
            | ':' :: r2 =>
              match takeDigitsN 2 r2 with
              | none => none
              | some (mi, r3) =>
                let secParsed : Option (Nat × Nat × List Char) :=
                  match r3 with
                  | ':' :: r4 =>
                    match takeDigitsN 2 r4 with
                    | none => none
                    | some (sec, r5) =>
                      match r5 with
                      | '.' :: r6 =>
                        match takeDigitsN 3 r6 with
                        | none => none
                        | some (msec, r7) => some (sec, msec, r7)
                      | _ => some (sec, 0, r5)
                  | _ => some (0, 0, r3)
                match secParsed with
                | none => none
                | some (sec, msec, r8) =>
                  match r8 with
                  | [] => isoPartsToMs y mo d h mi sec msec 0
                  | ['Z'] => isoPartsToMs y mo d h mi sec msec 0
                  | sgn :: r9 =>
                    if sgn = '+' ∨ sgn = '-' then
                      match takeDigitsN 2 r9 with
                      | none => none
                      | some (oh, r10) =>
                        match r10 with
                        | [':'] => none
                        | ':' :: r11 =>
                          match takeDigitsN 2 r11 with
                          | none => none
                          | some (om, r12) =>
                            if r12 = [] ∧ oh ≤ 23 ∧ om ≤ 59 then
                              isoPartsToMs y mo d h mi sec msec
                                (if sgn = '-' then -((oh * 60 + om : Nat) : Int)
                                 else ((oh * 60 + om : Nat) : Int))
                            else none
                        | _ => none
                    else none
            | _ => none
        | _ => none

/-- `formatKstDateTime`: re-parse the ISO string, shift by +09:00 and
format `YYYY-MM-DD HH:mm:ss` from the UTC fields. -/
def formatKstDateTime (iso : String) : Option String :=
  match parseEcmaIso iso with
  | none => none
  | some ms =>
    let k := ms + 32400000
    let days := Int.fdiv k 86400000
    let msod := (k - days * 86400000).toNat
    let (y, m, d) := civilFromDays days
    some (toString y ++ "-" ++ padNum 2 m ++ "-" ++ padNum 2 d ++ " "
      ++ padNum 2 (msod / 3600000) ++ ":" ++ padNum 2 (msod % 3600000 / 60000)
      ++ ":" ++ padNum 2 (msod % 60000 / 1000))

/-- `Number.parseFloat` followed by the `Number.isFinite` guard: `none`
for NaN (no numeric prefix) and for ±Infinity. -/
def parseFloatFinite (s : String) : Option Rat :=
  let cs := s.data.dropWhile isJsWs
  let (neg, cs1) :=
    match cs with
    | '+' :: r => (false, r)
    | '-' :: r => (true, r)
    | _ => (false, cs)
  if cs1.take 8 = "Infinity".data then none
  else
    let (intDs, cs2) := splitDigits cs1
    let (fracDs, cs3) :=
      match cs2 with
      | '.' :: r => splitDigits r
      | _ => ([], cs2)
    if intDs = [] ∧ fracDs = [] then none
    else
      let base : Rat :=
        (digitsToNat intDs : Rat) + (digitsToNat fracDs : Rat) / (10 : Rat) ^ fracDs.length
      let value : Rat :=
        match cs3 with
        | e :: r =>
          if e = 'e' ∨ e = 'E' then
            let (expNeg, r2) :=
              match r with
              | '+' :: r3 => (false, r3)
              | '-' :: r3 => (true, r3)
              | _ => (false, r)
            let (expDs, _) := splitDigits r2
            if expDs = [] then base
            else if expNeg then base / (10 : Rat) ^ digitsToNat expDs
            else base * (10 : Rat) ^ digitsToNat expDs
          else base
        | [] => base
      some (if neg then -value else value)

/-- The response headers the adapter reads.  `date` carries the result of
`Date.parse` on the `Date` header when present and parseable — parsing of
that RFC-1123 form is implementation-defined in ECMA, so it is an input of
the model. -/
structure PewsHeaders : Type where
  st : Option String
  date : Option Int

structure PewsResponse : Type where
  ok : Bool
  headers : PewsHeaders
  bytes : List (Fin 256)

/-- `updateOffsetFromHeaders`: prefer the `ST` seconds header, fall back
to the `Date` header, else keep the previous offset; clamp at zero and pad
by one second. -/
def updateOffsetFromHeaders (now : Int) (headers : PewsHeaders)
    (fallbackOffsetMs : Rat) : Rat :=
  let stOffset : Option Rat :=
    if headers.st.getD "" ≠ "" then
      (parseFloatFinite (headers.st.getD "")).map
        (fun serverSeconds => max 0 ((now : Rat) - serverSeconds * 1000 + 1000))
    else none
  match stOffset with
  | some o => o
  | none =>
    match headers.date with
    | some serverMs => max 0 ((now : Rat) - (serverMs : Rat) + 1000)
    | none => fallbackOffsetMs

structure PewsState : Type where
  lastEqkId : Option String
  lastPhase : Option Rat

/-- `parseState`: decode the checkpoint JSON, with `typeof` guards on each
field; any parse failure yields the empty state. -/
def parseState (state : Option String) : PewsState :=
  match state with
  | none => ⟨none, none⟩
  | some s =>
    if s = "" then ⟨none, none⟩
    else
      match jsonParse s with
      | none => ⟨none, none⟩
      | some j =>
        { lastEqkId :=
            match jsGetField j "lastEqkId" with
            | some (Json.str t) => some t
            | _ => none,
          lastPhase :=
            match jsGetField j "lastPhase" with
            | some (Json.num q) => some q
            | _ => none }

/-- `buildState`: `null` when the state carries no information, else the
serialized JSON object. -/
def buildState (st : PewsState) : Option String :=
  if st.lastEqkId.getD "" = "" ∧ st.lastPhase = none then none
  else
    some (jsonStringify (Json.obj
      [("lastEqkId", match st.lastEqkId with | some t => Json.str t | none => Json.null),
       ("lastPhase", match st.lastPhase with | some q => Json.num q | none => Json.null)]))

/-- `buildAlarmId`: `"<eqkId>-<phase>"`, or `null` when either part is
missing (or the id empty). -/
def buildAlarmId (eqkId : Option String) (phase : Option Rat) : Option String :=
  if eqkId.getD "" = "" ∨ phase = none then none
  else some (eqkId.getD "" ++ "-" ++ jsNumToString (phase.getD 0))

/-- `Number.prototype.toFixed(1)` (ties round to the larger value). -/
def ratToFixed1 (q : Rat) : String :=
  let scaled := q * 10
  let fl := scaled.floor
  let n := if (1 : Rat) / 2 ≤ scaled - (fl : Rat) then fl + 1 else fl
  (if n < 0 then "-" else "") ++ toString (n.natAbs / 10) ++ "." ++ toString (n.natAbs % 10)

def formatMagnitude (q : Rat) : String := ratToFixed1 q

def formatDepthKm (q : Rat) : String :=
  if q ≤ 0 then "-" else ratToFixed1 q ++ " km"

/-- `mapIntensityToLevel` (levels: 1 Info, 2 Minor, 3 Moderate, 4 Severe,
5 Critical); a detail phase for an incident already alerted at phase 2 is
downgraded to Info. -/
def mapIntensityToLevel (intensity : Option Nat) (phase : Nat) (eqkId : Option String)
    (previousPhase : Option Rat) (previousEqkId : Option String) : Nat :=
  if eqkId.getD "" ≠ "" ∧ previousEqkId.getD "" ≠ "" ∧ eqkId = previousEqkId
      ∧ previousPhase = some 2 ∧ phase ≠ 2 then 1
  else
    match intensity with
    | none => if phase = 2 then 4 else 3
    | some i =>
      if phase = 2 then
        if 7 ≤ i then 5 else if 5 ≤ i then 4 else if 4 ≤ i then 3 else if 3 ≤ i then 2 else 1
      else
        if 7 ≤ i then 4 else if 5 ≤ i then 3 else if 4 ≤ i then 2 else 1

def pewsBuildTitle (phaseLabel : String) (info : ParsedEarthquakeInfo) : String :=
  let parts : List String :=
    (if info.infoText.getD "" ≠ "" then [info.infoText.getD ""] else [])
    ++ (match info.magnitude with
        | some m => ["규모 " ++ formatMagnitude m]
        | none => [])
  if parts = [] then phaseLabel
  else String.intercalate " " parts ++ " " ++ phaseLabel

def pewsBuildBody (phaseLabel : String) (info : ParsedEarthquakeInfo) : Option String :=
  let occurredAtKst : Option String :=
    if info.occurredAt.getD "" ≠ "" then formatKstDateTime (info.occurredAt.getD "")
    else none
  let lines : List String :=
    [phaseLabel]
    ++ (if info.infoText.getD "" ≠ "" then ["정보 : " ++ info.infoText.getD ""] else [])
    ++ (match occurredAtKst with
        | some k => if k ≠ "" then ["발생 시각 : " ++ k] else []
        | none => [])
    ++ (match info.magnitude with
        | some m => ["규모 : " ++ formatMagnitude m]
        | none => [])
    ++ (match info.depthKm with
        | some dk => ["깊이 : " ++ formatDepthKm dk]
        | none => [])
    ++ (match info.intensity with
        | some i => ["최대 진도 : " ++ toString i]
        | none => [])
    ++ (if 0 < info.maxAreas.length then ["영향 지역 : " ++ String.intercalate ", " info.maxAreas]
        else [])
  if 0 < lines.length then some (String.intercalate "\n" lines) else none

def optJsonStr : Option String → Json
  | some s => Json.str s
  | none => Json.null

def optJsonRat : Option Rat → Json
  | some q => Json.num q
  | none => Json.null

def optJsonNat : Option Nat → Json
  | some n => Json.num (n : Rat)
  | none => Json.null

def pewsBuildPayload (phase : Nat) (info : ParsedEarthquakeInfo) (binTimeStr : String) : Json :=
  Json.obj
    [("phase", Json.num (phase : Rat)),
     ("binTime", Json.str binTimeStr),
     ("eqkId", optJsonStr info.eqkId),
     ("magnitude", optJsonRat info.magnitude),
     ("depthKm", optJsonRat info.depthKm),
     ("intensity", optJsonNat info.intensity),
     ("maxAreas", Json.arr (info.maxAreas.map Json.str)),
     ("infoText", optJsonStr info.infoText),
     ("latitude", optJsonRat info.latitude),
     ("longitude", optJsonRat info.longitude),
     ("occurredAt", optJsonStr info.occurredAt),
     ("rawUnixTime", optJsonNat info.rawUnixTime)]

/-- `buildEarthquakeEvent`.  `EventKinds.Quake = 2`. -/
def buildEarthquakeEvent (phase : Nat) (info : ParsedEarthquakeInfo)
    (previousEqkId : Option String) (previousPhase : Option Rat)
    (binTimeStr : String) : SourceEvent :=
  let phaseLabel := if phase = 2 then "지진 신속정보" else "지진 상세정보"
  { kind := 2,
    title := pewsBuildTitle phaseLabel info,
    body := pewsBuildBody phaseLabel info,
    occurredAt := info.occurredAt,
    regionText :=
      match info.infoText with
      | some t => some t
      | none => if 0 < info.maxAreas.length then some (String.intercalate ", " info.maxAreas)
                else none,
    level := mapIntensityToLevel info.intensity phase info.eqkId previousPhase previousEqkId,
    payload := some (pewsBuildPayload phase info binTimeStr) }

structure PewsRunOutput : Type where
  events : List SourceEvent
  nextState : Option String
  timeOffsetMs : Rat

/-- `KmaPewsEarthquakeSource.run` for the default (non-simulation)
instance.  `timeOffsetMs` is the instance field before the call, `now` is
`Date.now()`, `resp` the fetch outcome (`none` = thrown/aborted fetch). -/
def pewsRun (timeOffsetMs : Rat) (now : Int) (resp : Option PewsResponse)
    (state : Option String) : PewsRunOutput :=
  let parsedState := parseState state
  let binTimeStr := formatUtcTimestamp (jsTrunc ((now : Rat) - timeOffsetMs))
  match resp with
  | none => ⟨[], state, timeOffsetMs⟩
  | some r =>
    let offset1 := updateOffsetFromHeaders now r.headers timeOffsetMs
    if ¬ r.ok then ⟨[], state, offset1⟩
    else if r.bytes.length < 4 + 75 then ⟨[], state, offset1⟩
    else
      let phase := parsePhase r.bytes 4
      if phase < 2 then ⟨[], state, offset1⟩
      else
        match parseEarthquakeInfo now r.bytes with
        | none => ⟨[], state, offset1⟩
        | some info =>
          let previousAlarmId := buildAlarmId parsedState.lastEqkId parsedState.lastPhase
          let currentAlarmId := buildAlarmId info.eqkId (some (phase : Rat))
          if currentAlarmId.getD "" ≠ "" ∧ previousAlarmId = currentAlarmId then
            ⟨[], state, offset1⟩
          else
            let event := buildEarthquakeEvent phase info parsedState.lastEqkId
              parsedState.lastPhase binTimeStr
            let nextState := buildState
              ⟨(match info.eqkId with
                | some e => some e
                | none => parsedState.lastEqkId), some (phase : Rat)⟩
            ⟨[event], nextState, offset1⟩

/-! ## KMA micro-earthquake adapter

src/modules/ingest/app/sources/kma-micro-earthquake.source.ts.  The fetch
outcome is an input: `none` models a failed or non-2xx response, `some
html` the response body.  The regular expressions of the source are
translated into explicit scanners; each scanner's doc comment quotes the
regex it implements.  Scanners whose recursion is not structural carry a
fuel argument; every step consumes at least one input character, so any
fuel above the input length is enough, and callers pass `length + 1`. -/

/-- `\r\n` → `\n` then `\r` → `\n`. -/
def normNl : List Char → List Char
  | [] => []
  | '\r' :: '\n' :: rest => '\n' :: normNl rest
  | '\r' :: rest => '\n' :: normNl rest
  | c :: rest => c :: normNl rest

/-- The line accumulation of `normalizeMicroText`: an empty (normalized)
line becomes a single blank separator, never leading and never repeated. -/
def microPushLine (lines : List String) (l : String) : List String :=
  if l = "" then
    if lines ≠ [] ∧ lines.getLast? ≠ some "" then lines ++ [""] else lines
  else lines ++ [l]

def popTrailingEmpty (ls : List String) : List String :=
  (ls.reverse.dropWhile (fun l => l = "")).reverse

/-- `normalizeMicroText`: normalize newlines, collapse in-line whitespace,
drop blank runs, trim. -/
def normalizeMicroText (text : String) : String :=
  let rawLines := (normNl text.data).splitOn '\n'
  let lines := rawLines.foldl
    (fun acc line => microPushLine acc (jsTrim (String.mk (collapseWsAux false line)))) []
  jsTrim (String.intercalate "\n" (popTrailingEmpty lines))

/-- One `<br\s*\/?>` tag (case-insensitive), returning the remainder. -/
def matchBrTag (cs : List Char) : Option (List Char) :=
  match cs with
  | b :: r :: rest =>
    if (b = 'b' ∨ b = 'B') ∧ (r = 'r' ∨ r = 'R') then
      match rest.dropWhile isJsWs with
      | '/' :: '>' :: rest2 => some rest2
      | '>' :: rest2 => some rest2
      | _ => none
    else none
  | _ => none

/-- `.replace(/<br\s*\/?>/gi, '\n')`. -/
def replaceBrTags : Nat → List Char → List Char
  | 0, l => l
  | _ + 1, [] => []
  | fuel + 1, c :: rest =>
    if c = '<' then
      match matchBrTag rest with
      | some rest2 => '\n' :: replaceBrTags fuel rest2
      | none => '<' :: replaceBrTags fuel rest
    else c :: replaceBrTags fuel rest

def scanToGt : List Char → Option (List Char)
  | [] => none
  | c :: rest => if c = '>' then some rest else scanToGt rest

/-- `.replace(/<[^>]+>/g, '')`. -/
def stripTags : Nat → List Char → List Char
  | 0, l => l
  | _ + 1, [] => []
  | fuel + 1, c :: rest =>
    if c = '<' then
      match rest with
      | '>' :: _ => '<' :: stripTags fuel rest
      | _ =>
        match scanToGt rest with
        | some rest2 => stripTags fuel rest2
        | none => '<' :: stripTags fuel rest
    else c :: stripTags fuel rest

def isHexDigitChar (c : Char) : Bool :=
  (hexVal c).isSome

def hexDigitsToNat (ds : List Char) : Nat :=
  ds.foldl (fun a c => a * 16 + (hexVal c).getD 0) 0

/-- `String.fromCodePoint` restricted to Unicode scalar values; a
surrogate or out-of-range code point becomes U+FFFD (JavaScript would
produce a lone surrogate, which Lean strings cannot hold, or throw). -/
def codePointChars (cp : Nat) : List Char :=
  if cp < 0xd800 ∨ (0xdfff < cp ∧ cp ≤ 0x10ffff) then [Char.ofNat cp] else ['�']

/-- `&#x<hex>;` after the ampersand. -/
def tryHexEntity (cs : List Char) : Option (Nat × List Char) :=
  match cs with
  | '#' :: x :: rest =>
    if x = 'x' ∨ x = 'X' then
      let ds := rest.takeWhile isHexDigitChar
      if ds = [] then none
      else
        match rest.drop ds.length with
        | ';' :: rest2 => some (hexDigitsToNat ds, rest2)
        | _ => none
    else none
  | _ => none

/-- `.replace(/&#x([0-9a-fA-F]+);/g, ...)`. -/
def decodeHexEntities : Nat → List Char → List Char
  | 0, l => l
  | _ + 1, [] => []
  | fuel + 1, c :: rest =>
    if c = '&' then
      match tryHexEntity rest with
      | some (cp, rest2) => codePointChars cp ++ decodeHexEntities fuel rest2
      | none => '&' :: decodeHexEntities fuel rest
    else c :: decodeHexEntities fuel rest

/-- `&#<decimal>;` after the ampersand. -/
def tryDecEntity (cs : List Char) : Option (Nat × List Char) :=
  match cs with
  | '#' :: rest =>
    let ds := rest.takeWhile isDigitChar
    if ds = [] then none
    else
      match rest.drop ds.length with
      | ';' :: rest2 => some (digitsToNat ds, rest2)
      | _ => none
  | _ => none

/-- `.replace(/&#(\d+);/g, ...)`. -/
def decodeDecEntities : Nat → List Char → List Char
  | 0, l => l
  | _ + 1, [] => []
  | fuel + 1, c :: rest =>
    if c = '&' then
      match tryDecEntity rest with
      | some (cp, rest2) => codePointChars cp ++ decodeDecEntities fuel rest2
      | none => '&' :: decodeDecEntities fuel rest
    else c :: decodeDecEntities fuel rest

def isAsciiLetter (c : Char) : Bool :=
  (65 ≤ c.toNat && c.toNat ≤ 90) || (97 ≤ c.toNat && c.toNat ≤ 122)

/-- The `NAMED_ENTITIES` map (note: `nbsp` maps to a plain space). -/
def namedEntity (name : String) : Option String :=
  if name = "nbsp" then some " "
  else if name = "lt" then some "<"
  else if name = "gt" then some ">"
  else if name = "amp" then some "&"
  else if name = "quot" then some "\""
  else if name = "apos" then some "'"
  else none

/-- `.replace(/&([a-zA-Z]+);/g, ...)`: unknown names keep the full
match. -/
def decodeNamedEntities : Nat → List Char → List Char
  | 0, l => l
  | _ + 1, [] => []
  | fuel + 1, c :: rest =>
    if c = '&' then
      let nm := rest.takeWhile isAsciiLetter
      if nm ≠ [] then
        match rest.drop nm.length with
        | ';' :: rest2 =>
          match namedEntity (String.mk nm) with
          | some rep => rep.data ++ decodeNamedEntities fuel rest2
          | none => '&' :: nm ++ ';' :: decodeNamedEntities fuel rest2
        | _ => '&' :: decodeNamedEntities fuel rest
      else '&' :: decodeNamedEntities fuel rest
    else c :: decodeNamedEntities fuel rest

/-- `decodeHtmlEntities`: the three chained replaces. -/
def decodeHtmlEntities (cs : List Char) : List Char :=
  let s1 := decodeHexEntities (cs.length + 1) cs
  let s2 := decodeDecEntities (s1.length + 1) s1
  decodeNamedEntities (s2.length + 1) s2

/-- `sanitizeHtmlFragment`: `<br>` to newline, strip tags, decode
entities, normalize. -/
def sanitizeHtmlFragment (fragment : String) : String :=
  let s1 := replaceBrTags (fragment.data.length + 1) fragment.data
  let s2 := stripTags (s1.length + 1) s1
  normalizeMicroText (String.mk (decodeHtmlEntities s2))

/-- `extractMicroEarthquakeText`. -/
def extractMicroEarthquakeText (html : String) : Option String :=
  let content := sanitizeHtmlFragment html
  if 0 < content.length then some content else none

def isDateSep (c : Char) : Bool :=
  c = '.' || c = '/' || c = '-'

/-- One match attempt of
`/(\d{4})[-./](\d{2})[-./](\d{2})\s+(\d{2}):(\d{2}):(\d{2})/` (the source
writes the separator class with the dash last). -/
def tryKstDateTime (cs : List Char) : Option (Nat × Nat × Nat × Nat × Nat × Nat) :=
  match takeDigitsN 4 cs with
  | none => none
  | some (y, r1) =>
    match r1 with
    | s1 :: r2 =>
      if isDateSep s1 then
        match takeDigitsN 2 r2 with
        | none => none
        | some (mo, r3) =>
          match r3 with
          | s2 :: r4 =>
            if isDateSep s2 then
              match takeDigitsN 2 r4 with
              | none => none
              | some (d, r5) =>
                let r6 := r5.dropWhile isJsWs
                if r5.length = r6.length then none
                else
                  match takeDigitsN 2 r6 with
                  | none => none
                  | some (h, r7) =>
                    match r7 with
                    | ':' :: r8 =>
                      match takeDigitsN 2 r8 with
                      | none => none
                      | some (mi, r9) =>
                        match r9 with
                        | ':' :: r10 =>
                          (takeDigitsN 2 r10).map (fun p => (y, mo, d, h, mi, p.1))
                        | _ => none
                    | _ => none
            else none
          | [] => none
      else none
    | [] => none

def findKstDateTime : List Char → Option (Nat × Nat × Nat × Nat × Nat × Nat)
  | [] => none
  | c :: rest =>
    match tryKstDateTime (c :: rest) with
    | some r => some r
    | none => findKstDateTime rest

/-- `parseKstDateTime`: first date-time occurrence, read as `+09:00` local
time, converted to a UTC ISO string; `none` for unparseable or
out-of-range values. -/
def parseKstDateTime (value : String) : Option String :=
  match findKstDateTime value.data with
  | none => none
  | some (y, mo, d, h, mi, sec) =>
    match isoPartsToMs (y : Int) mo d h mi sec 0 540 with
    | none => none
    | some ms => epochMsToIso ms

/-- One match attempt of `/규모\s*:\s*([0-9.]+)/`. -/
def tryMagnitudeToken (cs : List Char) : Option (List Char) :=
  if cs.take 2 = "규모".data then
    match (cs.drop 2).dropWhile isJsWs with
    | ':' :: r2 =>
      let tok := (r2.dropWhile isJsWs).takeWhile (fun c => isDigitChar c || c = '.')
      if tok ≠ [] then some tok else none
    | _ => none
  else none

def findMagnitudeToken : List Char → Option (List Char)
  | [] => none
  | c :: rest =>
    match tryMagnitudeToken (c :: rest) with
    | some t => some t
    | none => findMagnitudeToken rest

/-- One match attempt of `/깊이\s*:\s*([0-9.]+)\s*km/`. -/
def tryDepthToken (cs : List Char) : Option (List Char) :=
  if cs.take 2 = "깊이".data then
    match (cs.drop 2).dropWhile isJsWs with
    | ':' :: r2 =>
      let r3 := r2.dropWhile isJsWs
      let tok := r3.takeWhile (fun c => isDigitChar c || c = '.')
      if tok ≠ [] ∧ ((r3.drop tok.length).dropWhile isJsWs).take 2 = "km".data then some tok
      else none
    | _ => none
  else none

def findDepthToken : List Char → Option (List Char)
  | [] => none
  | c :: rest =>
    match tryDepthToken (c :: rest) with
    | some t => some t
    | none => findDepthToken rest

/-- `parseNumber`: `Number()` of a `[0-9.]+` token — finite iff the token
has at most one dot and at least one digit. -/
def parseNumber (tok : List Char) : Option Rat :=
  if 1 < (tok.filter (fun c => c = '.')).length ∨ tok.all (fun c => c = '.') then none
  else
    let (ip, rest) := splitDigits tok
    let fp :=
      match rest with
      | '.' :: r => (splitDigits r).1
      | _ => []
    some ((digitsToNat ip : Rat) + (digitsToNat fp : Rat) / (10 : Rat) ^ fp.length)

def lineTermChar (c : Char) : Bool :=
  c.toNat = 0x0a || c.toNat = 0x0d || c.toNat = 0x2028 || c.toNat = 0x2029

/-- The `\d{4}\/\d{2}\/\d{2}\s+\d{2}:\d{2}:\d{2}` prefix of the region
regex (slash separators only), returning the remainder. -/
def trySlashDateTime (cs : List Char) : Option (List Char) :=
  match takeDigitsN 4 cs with
  | none => none
  | some (_, r1) =>
    match r1 with
    | '/' :: r2 =>
      match takeDigitsN 2 r2 with
      | none => none
      | some (_, r3) =>
        match r3 with
        | '/' :: r4 =>
          match takeDigitsN 2 r4 with
          | none => none
          | some (_, r5) =>
            let r6 := r5.dropWhile isJsWs
            if r5.length = r6.length then none
            else
              match takeDigitsN 2 r6 with
              | none => none
              | some (_, r7) =>
                match r7 with
                | ':' :: r8 =>
                  match takeDigitsN 2 r8 with
                  | none => none
                  | some (_, r9) =>
                    match r9 with
                    | ':' :: r10 => (takeDigitsN 2 r10).map (fun p => p.2)
                    | _ => none
                | _ => none
        | _ => none
    | _ => none

/-- End condition of the lazy capture `(.+?)(?:\s*\(|$)`. -/
def regionEndCond (u : List Char) : Bool :=
  u.isEmpty || headIs '(' (u.dropWhile isJsWs)

/-- One match attempt of
`/(\d{4}\/\d{2}\/\d{2}\s+\d{2}:\d{2}:\d{2})\s+(.+?)(?:\s*\(|$)/`: after
the timestamp and the (greedily consumed) whitespace run, the lazy capture
is the shortest non-empty dot-matchable prefix whose remainder is the end
of the string or optional whitespace before an opening parenthesis.
Backtracking into the whitespace run is not modelled; it does not arise on
feed-shaped inputs. -/
def tryRegionCapture (cs : List Char) : Option (List Char) :=
  match trySlashDateTime cs with
  | none => none
  | some rest =>
    let t := rest.dropWhile isJsWs
    if rest.length = t.length then none
    else
      let maxDot := (t.takeWhile (fun c => ¬ lineTermChar c)).length
      ((List.range' 1 maxDot).find? (fun k => regionEndCond (t.drop k))).map
        (fun k => t.take k)

def findRegionCapture : List Char → Option (List Char)
  | [] => none
  | c :: rest =>
    match tryRegionCapture (c :: rest) with
    | some t => some t
    | none => findRegionCapture rest

def scanToCloseParen : List Char → Option (List Char)
  | [] => none
  | c :: rest =>
    if c = ')' then some rest
    else if lineTermChar c then none
    else scanToCloseParen rest

/-- `.replace(/\(.*?\)/g, '')`. -/
def removeParenGroups : Nat → List Char → List Char
  | 0, l => l
  | _ + 1, [] => []
  | fuel + 1, c :: rest =>
    if c = '(' then
      match scanToCloseParen rest with
      | some rest2 => removeParenGroups fuel rest2
      | none => '(' :: removeParenGroups fuel rest
    else c :: removeParenGroups fuel rest

/-- `extractRegionText`: region from the timestamp line, else the
parenthesis-stripped, whitespace-collapsed text without its leading
timestamp. -/
def extractRegionText (text : String) : Option String :=
  match findRegionCapture text.data with
  | some capture =>
    let region := jsTrim (String.mk capture)
    if 0 < region.length then some region else none
  | none =>
    let cleaned := jsTrim (collapseWs
      (String.mk (removeParenGroups (text.data.length + 1) text.data)))
    if cleaned = "" then none
    else
      match trySlashDateTime cleaned.data with
      | some rest =>
        let withoutTime := rest.dropWhile isJsWs
        if 0 < withoutTime.length then some (String.mk withoutTime) else none
      | none => some cleaned

structure MicroEarthquakeDetail : Type where
  occurredAt : Option String
  regionText : Option String
  magnitude : Option Rat
  depthKm : Option Rat

def parseMicroEarthquakeDetail (detailLine : String) : MicroEarthquakeDetail :=
  { occurredAt := parseKstDateTime detailLine,
    regionText := extractRegionText detailLine,
    magnitude := (findMagnitudeToken detailLine.data).bind parseNumber,
    depthKm := (findDepthToken detailLine.data).bind parseNumber }

/-- `splitHeaderAndDetail`. -/
def splitHeaderAndDetail (text : String) : Option String × Option String :=
  let lines := ((text.data.splitOn '\n').map (fun l => jsTrim (String.mk l))).filter
    (fun l => l ≠ "")
  match lines with
  | [] => (none, none)
  | [l] => (none, some l)
  | header :: rest => (some header, some (String.intercalate " " rest))

/-- `stripBracket`. -/
def stripBracket (v : String) : String :=
  let t := jsTrim v
  match t.data with
  | [] => t
  | c :: _ =>
    if c = '[' ∧ t.data.getLast? = some ']' then
      jsTrim (String.mk (t.data.drop 1 |>.dropLast))
    else t

/-- The micro source's `buildTitle`. -/
def microBuildTitle (header : Option String) (regionText : Option String)
    (magnitude : Option Rat) : String :=
  let parts : List String :=
    (if regionText.getD "" ≠ "" then [regionText.getD ""] else [])
    ++ (match magnitude with
        | some m => ["규모 " ++ formatMagnitude m]
        | none => [])
  if parts = [] then
    if header.getD "" ≠ "" then stripBracket (header.getD "") else "미소지진 발생 현황"
  else String.intercalate " " parts ++ " 미소지진"

/-- The micro source's `buildPayload`. -/
def microBuildPayload (text : String) (detail : Option MicroEarthquakeDetail)
    (detailLine : Option String) : Json :=
  Json.obj
    [("rawText", Json.str text),
     ("detailLine", optJsonStr detailLine),
     ("occurredAt", optJsonStr (detail.bind (fun d => d.occurredAt))),
     ("regionText", optJsonStr (detail.bind (fun d => d.regionText))),
     ("magnitude", optJsonRat (detail.bind (fun d => d.magnitude))),
     ("depthKm", optJsonRat (detail.bind (fun d => d.depthKm)))]

/-- `buildMicroEarthquakeEvent`.  `EventKinds.Quake = 2`,
`EventLevels.Info = 1`. -/
def buildMicroEarthquakeEvent (text : String) : SourceEvent :=
  let hd := splitHeaderAndDetail text
  let detail :=
    if hd.2.getD "" ≠ "" then some (parseMicroEarthquakeDetail (hd.2.getD "")) else none
  { kind := 2,
    title := microBuildTitle hd.1 (detail.bind (fun d => d.regionText))
      (detail.bind (fun d => d.magnitude)),
    body := some (hd.2.getD text),
    occurredAt := detail.bind (fun d => d.occurredAt),
    regionText := detail.bind (fun d => d.regionText),
    level := 1,
    payload := some (microBuildPayload text detail hd.2) }

/-- `KmaMicroEarthquakeSource.run`: `html = none` models a failed fetch;
otherwise extract and normalize the text, skip when it equals the stored
snapshot state, else emit one event and store the new snapshot. -/
def microRun (html : Option String) (state : Option String) :
    List SourceEvent × Option String :=
  match html with
  | none => ([], state)
  | some h =>
    match extractMicroEarthquakeText h with
    | none => ([], state)
    | some extracted =>
      let normalized := normalizeMicroText extracted
      if normalized = "" then ([], state)
      else if state.getD "" ≠ "" ∧ normalized = state.getD "" then ([], state)
      else ([buildMicroEarthquakeEvent normalized], some normalized)

/-! ## Spec-side view of the PEWS trailer bit layout

The bit-layout claim is a refinement: the source slices a bit *string*,
the spec describes bit offsets into the 120-bit trailer *value*.  The two
definitions below follow the spec's words — the trailer bytes as one
big-endian integer, and the field at bit offsets `[s, e)` of a `width`-bit
value — to be compared with `parseEarthquakeInfo` above. -/

/-- The trailer bytes read as a single big-endian integer. -/
def beBytesToNat (bs : List (Fin 256)) : Nat :=
  bs.foldl (fun a b => 256 * a + b.val) 0

/-- The field at bit offsets `[s, e)` (counted from the most significant
bit) of a `width`-bit value. -/
def bitField (v width s e : Nat) : Nat :=
  v / 2 ^ (width - e) % 2 ^ (e - s)

/-! ## Lemmas: JSON string escaping round-trips through the parser -/

theorem hexVal_hexDigitChar (m : Nat) (h : m < 16) : hexVal (hexDigitChar m) = some m := by
  interval_cases m <;> decide

theorem jsonEscape_cons (c : Char) (cs : List Char) :
    jsonEscape (c :: cs) = jsonEscapeChar c ++ jsonEscape cs := rfl

theorem parseStringBody_escape (cs : List Char) : ∀ (rest : List Char) (fuel : Nat),
    (jsonEscape cs).length < fuel →
    parseStringBody fuel (jsonEscape cs ++ ('"' :: rest)) = some (cs, rest) := by
  induction cs with
  | nil =>
    intro rest fuel hf
    obtain ⟨f, rfl⟩ : ∃ f, fuel = f + 1 := ⟨fuel - 1, by omega⟩
    simp [jsonEscape, parseStringBody]
  | cons c cs ih =>
    intro rest fuel hf
    rw [jsonEscape_cons] at hf ⊢
    rw [List.append_assoc]
    by_cases h1 : c = '"'
    · subst h1
      rw [show jsonEscapeChar '"' = ['\\', '"'] from by decide] at hf ⊢
      simp only [List.length_append, List.length_cons, List.length_nil] at hf
      obtain ⟨f, rfl⟩ : ∃ f, fuel = f + 2 := ⟨fuel - 2, by omega⟩
      have hrec : (jsonEscape cs).length < f := by omega
      simp [parseStringBody, parseStringEsc, consStr, ih _ _ hrec]
    · by_cases h2 : c = '\\'
      · subst h2
        rw [show jsonEscapeChar '\\' = ['\\', '\\'] from by decide] at hf ⊢
        simp only [List.length_append, List.length_cons, List.length_nil] at hf
        obtain ⟨f, rfl⟩ : ∃ f, fuel = f + 2 := ⟨fuel - 2, by omega⟩
        have hrec : (jsonEscape cs).length < f := by omega
        simp [parseStringBody, parseStringEsc, consStr, ih _ _ hrec]
      · by_cases h3 : c = '\x08'
        · subst h3
          rw [show jsonEscapeChar '\x08' = ['\\', 'b'] from by decide] at hf ⊢
          simp only [List.length_append, List.length_cons, List.length_nil] at hf
          obtain ⟨f, rfl⟩ : ∃ f, fuel = f + 2 := ⟨fuel - 2, by omega⟩
          have hrec : (jsonEscape cs).length < f := by omega
          simp [parseStringBody, parseStringEsc, consStr, ih _ _ hrec]
        · by_cases h4 : c = '\x0c'
          · subst h4
            rw [show jsonEscapeChar '\x0c' = ['\\', 'f'] from by decide] at hf ⊢
            simp only [List.length_append, List.length_cons, List.length_nil] at hf
            obtain ⟨f, rfl⟩ : ∃ f, fuel = f + 2 := ⟨fuel - 2, by omega⟩
            have hrec : (jsonEscape cs).length < f := by omega
            simp [parseStringBody, parseStringEsc, consStr, ih _ _ hrec]
          · by_cases h5 : c = '\n'
            · subst h5
              rw [show jsonEscapeChar '\n' = ['\\', 'n'] from by decide] at hf ⊢
              simp only [List.length_append, List.length_cons, List.length_nil] at hf
              obtain ⟨f, rfl⟩ : ∃ f, fuel = f + 2 := ⟨fuel - 2, by omega⟩
              have hrec : (jsonEscape cs).length < f := by omega
              simp [parseStringBody, parseStringEsc, consStr, ih _ _ hrec]
            · by_cases h6 : c = '\r'
              · subst h6
                rw [show jsonEscapeChar '\r' = ['\\', 'r'] from by decide] at hf ⊢
                simp only [List.length_append, List.length_cons, List.length_nil] at hf
                obtain ⟨f, rfl⟩ : ∃ f, fuel = f + 2 := ⟨fuel - 2, by omega⟩
                have hrec : (jsonEscape cs).length < f := by omega
                simp [parseStringBody, parseStringEsc, consStr, ih _ _ hrec]
              · by_cases h7 : c = '\t'
                · subst h7
                  rw [show jsonEscapeChar '\t' = ['\\', 't'] from by decide] at hf ⊢
                  simp only [List.length_append, List.length_cons, List.length_nil] at hf
                  obtain ⟨f, rfl⟩ : ∃ f, fuel = f + 2 := ⟨fuel - 2, by omega⟩
                  have hrec : (jsonEscape cs).length < f := by omega
                  simp [parseStringBody, parseStringEsc, consStr, ih _ _ hrec]
                · by_cases h8 : c.toNat < 32
                  · have hesc : jsonEscapeChar c =
                        ['\\', 'u', '0', '0', hexDigitChar (c.toNat / 16),
                          hexDigitChar (c.toNat % 16)] := by
                      rw [jsonEscapeChar]
                      simp [h1, h2, h3, h4, h5, h6, h7, h8]
                    rw [hesc] at hf ⊢
                    simp only [List.length_append, List.length_cons, List.length_nil] at hf
                    obtain ⟨f, rfl⟩ : ∃ f, fuel = f + 3 := ⟨fuel - 3, by omega⟩
                    have hrec : (jsonEscape cs).length < f := by omega
                    have hdiv : c.toNat / 16 < 16 := by omega
                    have hmod : c.toNat % 16 < 16 := by omega
                    have hv : ((0 * 16 + 0) * 16 + c.toNat / 16) * 16 + c.toNat % 16 = c.toNat := by
                      omega
                    have hlt : c.toNat < 55296 := by omega
                    simp only [List.cons_append, List.nil_append]
                    rw [parseStringBody]
                    simp only [show ('\\' = '"') = False from by simp, ite_false, ite_true,
                      show ('\\' = '\\') = True from by simp]
                    rw [parseStringEsc]
                    simp only [show ('u' = '"') = False from by simp,
                      show ('u' = '\\') = False from by simp, show ('u' = '/') = False from by simp,
                      show ('u' = 'b') = False from by simp, show ('u' = 'f') = False from by simp,
                      show ('u' = 'n') = False from by simp, show ('u' = 'r') = False from by simp,
                      show ('u' = 't') = False from by simp, show ('u' = 'u') = True from by simp,
                      ite_false, ite_true]
                    rw [parseStringUEsc]
                    rw [show hex4 '0' '0' (hexDigitChar (c.toNat / 16)) (hexDigitChar (c.toNat % 16))
                        = some c.toNat from by
                      rw [hex4]
                      rw [show hexVal '0' = some 0 from by decide,
                        hexVal_hexDigitChar _ hdiv, hexVal_hexDigitChar _ hmod]
                      show some (((0 * 16 + 0) * 16 + c.toNat / 16) * 16 + c.toNat % 16)
                        = some c.toNat
                      rw [hv]]
                    show (if c.toNat < 55296 ∨ 57343 < c.toNat then
                          consStr (Char.ofNat c.toNat)
                            (parseStringBody f (jsonEscape cs ++ '"' :: rest))
                        else if c.toNat ≤ 56319 then
                          parseStringLowSurr f c.toNat (jsonEscape cs ++ '"' :: rest)
                        else none) = some (c :: cs, rest)
                    rw [if_pos (Or.inl hlt), Char.ofNat_toNat, ih _ _ hrec]
                    rfl
                  · have hesc : jsonEscapeChar c = [c] := by
                      rw [jsonEscapeChar]
                      simp [h1, h2, h3, h4, h5, h6, h7, h8]
                    rw [hesc] at hf ⊢
                    simp only [List.length_append, List.length_cons, List.length_nil] at hf
                    obtain ⟨f, rfl⟩ : ∃ f, fuel = f + 2 := ⟨fuel - 2, by omega⟩
                    have hrec : (jsonEscape cs).length < f + 1 := by omega
                    simp only [List.cons_append, List.nil_append]
                    rw [parseStringBody]
                    simp [h1, h2, h8, consStr, ih _ _ hrec]

theorem skipJsonWs_not_ws (c : Char) (cs : List Char) (h : isJsonWs c = false) :
    skipJsonWs (c :: cs) = c :: cs := by
  rw [skipJsonWs, h]
  simp

theorem publishNewEventMessage_data (id : String) :
    (publishNewEventMessage id).data =
      '\x7b' :: '"' :: 'e' :: 'v' :: 'e' :: 'n' :: 't' :: 'I' :: 'd' :: '"' :: ':' :: '"' ::
        (jsonEscape id.data ++ ['"', '\x7d']) := by
  show (jsonStringify (Json.obj [("eventId", Json.str id)])).data = _
  rw [jsonStringify]
  rw [jsonStringifyMembers, jsonStringifyMembers, jsonStringify]
  rw [commaJoin]
  simp only [String.data_append, jsonQuote]
  rw [show jsonEscape "eventId".data = "eventId".data from by decide]
  rw [show "eventId".data = ['e', 'v', 'e', 'n', 't', 'I', 'd'] from by decide]
  simp

theorem parseJsonValue_pubMsg (id : String) (fuel : Nat)
    (hfuel : (jsonEscape id.data).length + 14 ≤ fuel) :
    parseJsonValue fuel ((publishNewEventMessage id).data) =
      some (Json.obj [("eventId", Json.str id)], []) := by
  obtain ⟨b, rfl⟩ : ∃ b, fuel = b + 14 := ⟨fuel - 14, by omega⟩
  have hval := parseStringBody_escape id.data ['\x7d'] (b + 12) (by omega)
  rw [publishNewEventMessage_data]
  simp [parseJsonValue, parseJsonMembers, skipJsonWs, isJsonWs, parseStringBody, consStr, hval]

theorem jsonParse_pubMsg (id : String) :
    jsonParse (publishNewEventMessage id) = some (Json.obj [("eventId", Json.str id)]) := by
  rw [jsonParse]
  have h14 : (publishNewEventMessage id).data.length = (jsonEscape id.data).length + 14 := by
    rw [publishNewEventMessage_data]
    simp
  have hdl : (publishNewEventMessage id).length = (publishNewEventMessage id).data.length := rfl
  rw [parseJsonValue_pubMsg id _ (by omega)]
  simp [skipJsonWs]

/-! ## Claim theorems: event-bus wire format (C3, C10) -/

/-! ## Lemmas: event log read path -/

theorem EventSources_code_ne_zero (s : EventSources) : s.code ≠ 0 := by
  cases s <;> decide

/-! ## Claim theorems: event log read path (C2, C4) -/

/-- C2 counterexample: `listEventsSince` applies no id tie-break.  On a
table holding two rows with equal `fetched_at` whose ids are "b" then "a"
in underlying order, the query returns them as ["b", "a"], violating the
claimed (id ASC) tie order. -/
theorem c2_counterexample :
    (listEventsSince [tieRowB, tieRowA] ⟨-1, none⟩).map EventRow.id = ["b", "a"]
    ∧ tieRowB.fetchedAt = tieRowA.fetchedAt
    ∧ ¬ List.Pairwise
        (fun a b => a.fetchedAt < b.fetchedAt
          ∨ (a.fetchedAt = b.fetchedAt ∧ List.Lex (· < ·) a.id.data b.id.data))
        (listEventsSince [tieRowB, tieRowA] ⟨-1, none⟩) := by
  refine ⟨rfl, rfl, ?_⟩
  rw [show listEventsSince [tieRowB, tieRowA] ⟨-1, none⟩ = [tieRowB, tieRowA] from rfl]
  intro h
  have hpair := (List.pairwise_cons.mp h).1 tieRowA (by simp)
  revert hpair
  decide

/-- C2 (amended): every event returned by `listEventsSince` has
`fetched_at > since`, the result is ordered ascending by `fetched_at`, and
at most `limit` rows (default 500) are returned.  No id tie-break is
applied; rows with equal `fetched_at` keep the table's underlying order. -/
theorem c2_list_since_contract (events : List EventRow) (params : ListEventsSinceParams) :
    (∀ r ∈ listEventsSince events params, params.since < r.fetchedAt)
    ∧ List.Pairwise (fun a b => a.fetchedAt ≤ b.fetchedAt) (listEventsSince events params)
    ∧ (listEventsSince events params).length ≤ params.limit.getD 500 := by
  haveI : IsTotal EventRow (fun a b => a.fetchedAt ≤ b.fetchedAt) :=
    ⟨fun a b => Int.le_total _ _⟩
  haveI : IsTrans EventRow (fun a b => a.fetchedAt ≤ b.fetchedAt) :=
    ⟨fun a b c hab hbc => le_trans hab hbc⟩
  refine ⟨?_, ?_, ?_⟩
  · intro r hr
    rw [listEventsSince] at hr
    have h1 := List.take_subset _ _ hr
    have h2 := (List.perm_insertionSort _ _).mem_iff.mp h1
    have h3 := List.mem_filter.mp h2
    simpa using h3.2
  · rw [listEventsSince]
    exact List.Pairwise.sublist (List.take_sublist _ _) (List.sorted_insertionSort _ _)
  · rw [listEventsSince]
    simp [List.length_take]

/-- C4 counterexample: the claimed "when the source filter is present the
equality predicate is applied" fails at the reachable call `source = 0`.
The query schema admits 0 (`z.coerce.number().int().optional()`),
`EventService` forwards it unchanged, the filter is present
(`source.isSome`), yet `if (params.source)` is falsy at 0, so the
repository applies no source predicate: a table whose only row has source
code 1 is returned in full, where the claimed equality predicate would
have returned nothing. -/
theorem c4_counterexample :
    schemaGetEventsQuery (some 50) none (some 0) = true
    ∧ (⟨some 50, none, some 0⟩ : ListEventsParams).source.isSome = true
    ∧ listEvents [tieRowA] ⟨some 50, none, some 0⟩ = [tieRowA]
    ∧ [tieRowA].filter (fun r => (r.source.code : Int) == 0) = []
    ∧ (tieRowA.source.code : Int) ≠ 0 :=
  ⟨by decide, by decide, rfl, rfl, by decide⟩

/-- C4 (amended): a validated `list` query returns at most `limit` rows
(default 50, at most 200), ordered by `fetched_at` descending; the `kind`
filter is applied exactly when present; the `source` filter is applied
exactly when present and nonzero — at the validated call `source = 0` the
truthiness test drops the present filter and no source predicate is
applied. -/
theorem c4_list_events_contract (events : List EventRow) (params : ListEventsParams)
    (hvalid : schemaGetEventsQuery (params.limit.map Int.ofNat)
        (params.kind.map Int.ofNat) params.source = true) :
    (listEvents events params).length ≤ params.limit.getD 50
    ∧ params.limit.getD 50 ≤ 200
    ∧ List.Pairwise (fun a b => b.fetchedAt ≤ a.fetchedAt) (listEvents events params)
    ∧ (∀ v : Int, params.source = some v → v ≠ 0 →
        listEvents events params =
          ((events.filter (fun r =>
              (params.kind.all fun k => r.kind == k)
              && ((r.source.code : Int) == v))).insertionSort
            (fun a b => b.fetchedAt ≤ a.fetchedAt)).take (params.limit.getD 50))
    ∧ (params.source = none ∨ params.source = some 0 →
        listEvents events params =
          ((events.filter (fun r => params.kind.all fun k => r.kind == k)).insertionSort
            (fun a b => b.fetchedAt ≤ a.fetchedAt)).take (params.limit.getD 50)) := by
  haveI : IsTotal EventRow (fun a b => b.fetchedAt ≤ a.fetchedAt) :=
    ⟨fun a b => Int.le_total _ _⟩
  haveI : IsTrans EventRow (fun a b => b.fetchedAt ≤ a.fetchedAt) :=
    ⟨fun a b c hab hbc => le_trans hbc hab⟩
  refine ⟨?_, ?_, ?_, ?_, ?_⟩
  · rw [listEvents]
    simp [List.length_take]
  · match hl : params.limit with
    | none => simp
    | some v =>
      simp [schemaGetEventsQuery, hl] at hvalid
      simp
      omega
  · rw [listEvents]
    exact List.Pairwise.sublist (List.take_sublist _ _) (List.sorted_insertionSort _ _)
  · intro v hv hnz
    rw [listEvents, hv]
    congr 1
    congr 1
    rw [show jsTruthySource (some v) = true from by simp [jsTruthySource, hnz], if_pos rfl]
    match hk : params.kind with
    | none =>
      simp only [Option.isSome_none, if_false, Option.all_none, Bool.true_and]
      refine List.filter_congr fun r hr => ?_
      rw [Bool.eq_iff_iff]
      simp only [beq_iff_eq, decide_eq_true_eq, Option.some_inj]
    | some k =>
      simp only [Option.isSome_some, if_true, Option.all_some, List.filter_filter]
      refine List.filter_congr fun r hr => ?_
      rw [Bool.eq_iff_iff]
      simp only [Bool.and_eq_true, beq_iff_eq, decide_eq_true_eq, Option.some_inj]
      exact and_comm
  · intro hsrc
    have hfalsy : jsTruthySource params.source = false := by
      rcases hsrc with h | h <;> simp [h, jsTruthySource]
    rw [listEvents, hfalsy]
    congr 1
    congr 1
    simp only [Bool.false_eq_true, if_false]
    match hk : params.kind with
    | none =>
      simp only [Option.isSome_none, Bool.false_eq_true, if_false, Option.all_none,
        List.filter_true]
    | some k =>
      simp only [Option.isSome_some, if_true, Option.all_some]
      refine List.filter_congr fun r hr => ?_
      rw [Bool.eq_iff_iff]
      simp only [beq_iff_eq, decide_eq_true_eq, Option.some_inj]

/-- Witness for C4: the contract applied to a one-row table, once with a
validated query carrying a nonzero source filter and once with the dropped
`source = 0` filter. -/
theorem c4_list_events_contract_witness :
    (listEvents [tieRowA] ⟨some 10, some 1, some 1⟩).length ≤ 10
    ∧ listEvents [tieRowA] ⟨some 10, none, some 0⟩ =
        (([tieRowA].filter (fun r => (none : Option Nat).all fun k => r.kind == k)).insertionSort
          (fun a b => b.fetchedAt ≤ a.fetchedAt)).take 10 :=
  ⟨(c4_list_events_contract [tieRowA] ⟨some 10, some 1, some 1⟩ (by decide)).1,
   (c4_list_events_contract [tieRowA] ⟨some 10, none, some 0⟩ (by decide)).2.2.2.2
     (Or.inr rfl)⟩

/-- C3 counterexample: the wire-format key is `eventId`, not `event_id`.
At id `"x"` the published payload differs from `{"event_id":"x"}`, and the
subscriber rejects an `event_id`-keyed payload; moreover a JSON-parseable
payload of the wrong shape (`eventId` not a string) is dropped without a
warning, so not every malformed message warns. -/
theorem c3_counterexample :
    (publishNewEvent "x").2 ≠ "\x7b\"event_id\":\"x\"\x7d"
    ∧ parseNewEventMessage "\x7b\"event_id\":\"x\"\x7d" = none
    ∧ parseNewEventMessage "\x7b\"eventId\":5\x7d" = none
    ∧ parseNewEventMessageWarns "\x7b\"eventId\":5\x7d" = false := by
  exact ⟨by decide, by decide, by decide, by decide⟩

/-- C3 (amended): for every event id, `publishNewEvent` sends on channel
`"events:new"` the JSON payload `{"eventId":"<id>"}`; the subscriber hands
every decodable received message's event id to the handler and drops
malformed messages, warning exactly when JSON parsing fails (a well-formed
JSON value of the wrong shape is dropped silently). -/
theorem c3_event_bus_wire_format :
    (∀ id : String,
        publishNewEvent id = (NEW_EVENTS_CHANNEL, "\x7b\"eventId\":" ++ jsonQuote id ++ "\x7d"))
    ∧ (∀ msg id, parseNewEventMessage msg = some id →
        onNewEventsMessage NEW_EVENTS_CHANNEL msg = some id)
    ∧ (∀ msg, parseNewEventMessage msg = none →
        onNewEventsMessage NEW_EVENTS_CHANNEL msg = none)
    ∧ (∀ msg, parseNewEventMessageWarns msg = (jsonParse msg).isNone) := by
  refine ⟨?_, ?_, ?_, fun msg => rfl⟩
  · intro id
    refine Prod.ext rfl ?_
    show publishNewEventMessage id = _
    apply String.ext
    rw [publishNewEventMessage_data]
    simp [String.data_append, jsonQuote]
  · intro msg id h
    rw [onNewEventsMessage]
    simp [h]
  · intro msg h
    rw [onNewEventsMessage]
    simp [h]

/-- Witness for C3: the amended theorem applied at a concrete decodable
message and a concrete malformed message. -/
theorem c3_event_bus_wire_format_witness :
    onNewEventsMessage NEW_EVENTS_CHANNEL "\x7b\"eventId\":\"x\"\x7d" = some "x"
    ∧ onNewEventsMessage NEW_EVENTS_CHANNEL "oops" = none := by
  exact ⟨c3_event_bus_wire_format.2.1 _ "x" (by decide),
    c3_event_bus_wire_format.2.2.1 _ (by decide)⟩

/-- C10: decoding the pub/sub message produced by the publisher recovers
exactly the published event id: `parseNewEventMessage` applied to the JSON
text built by `publishNewEvent` yields the same event id, for every id
string, so publisher and subscriber of the "events:new" channel agree on
the message encoding. -/
theorem c10_publish_parse_roundtrip (id : String) :
    parseNewEventMessage (publishNewEventMessage id) = some id := by
  rw [parseNewEventMessage, jsonParse_pubMsg]
  simp [jsGetField]

/-! ## Lemmas: ingest worker -/

theorem insertLoop_all (f : Nat → Bool) :
    ∀ (evs : List SourceEvent) (i : Nat),
      ((insertLoop f i evs).2 = true ↔ ∀ j, j < evs.length → f (i + j) = true) := by
  intro evs
  induction evs with
  | nil => intro i; simp [insertLoop]
  | cons e rest ih =>
    intro i
    rw [insertLoop]
    simp only [Bool.and_eq_true, ih (i + 1), List.length_cons]
    constructor
    · rintro ⟨h0, hrest⟩ j hj
      match j with
      | 0 => simpa using h0
      | j + 1 =>
        have := hrest j (by omega)
        simpa [Nat.add_assoc, Nat.add_comm 1 j] using this
    · intro h
      refine ⟨by simpa using h 0 (by omega), fun j hj => ?_⟩
      have := h (j + 1) (by omega)
      have harith : i + (j + 1) = i + 1 + j := by omega
      rwa [harith] at this

theorem insertLoop_mem (f : Nat → Bool) :
    ∀ (evs : List SourceEvent) (i j : Nat) (h : j < evs.length),
      f (i + j) = true → evs[j] ∈ (insertLoop f i evs).1 := by
  intro evs
  induction evs with
  | nil => intro i j h; simp at h
  | cons e rest ih =>
    intro i j h hf
    rw [insertLoop]
    match j with
    | 0 =>
      simp only [List.getElem_cons_zero]
      simp only [Nat.add_zero] at hf
      simp [hf]
    | j + 1 =>
      simp only [List.getElem_cons_succ]
      have harith : i + (j + 1) = i + 1 + j := by omega
      rw [harith] at hf
      have hmem := ih (i + 1) j (by simpa using h) hf
      by_cases h0 : f i = true
      · simp [h0, hmem]
      · simp only [Bool.not_eq_true] at h0
        simp [h0, hmem]

theorem countP_set {α : Type} (p : α → Bool) :
    ∀ (l : List α) (i : Nat) (a b : α), l[i]? = some a →
      (l.set i b).countP p + (if p a then 1 else 0) =
        l.countP p + (if p b then 1 else 0) := by
  intro l
  induction l with
  | nil => intro i a b h; simp at h
  | cons x xs ih =>
    intro i a b h
    match i with
    | 0 =>
      simp only [List.getElem?_cons_zero, Option.some_inj] at h
      subst h
      simp only [List.set_cons_zero, List.countP_cons]
      omega
    | i + 1 =>
      simp only [List.getElem?_cons_succ] at h
      simp only [List.set_cons_succ, List.countP_cons]
      have := ih i a b h
      omega

theorem execCount_set (jobs : List (EventSources × JobPhase)) (i : Nat)
    (a1 b1 : EventSources) (pha phb : JobPhase) (s' : EventSources)
    (h : jobs[i]? = some (a1, pha)) :
    (jobs.set i (b1, phb)).countP (fun j => decide (j.1 = s' ∧ j.2 = JobPhase.executing))
      + (if a1 = s' ∧ pha = JobPhase.executing then 1 else 0)
    = jobs.countP (fun j => decide (j.1 = s' ∧ j.2 = JobPhase.executing))
      + (if b1 = s' ∧ phb = JobPhase.executing then 1 else 0) := by
  have hc := countP_set (fun j => decide (j.1 = s' ∧ j.2 = JobPhase.executing))
    jobs i (a1, pha) (b1, phb) h
  simpa using hc

theorem workerStep_preserves_inv (st st' : WorkerState)
    (hstep : WorkerStep st st') (hinv : WorkerInv st) : WorkerInv st' := by
  cases hstep with
  | enter i s hj hfree =>
    intro s'
    have hcnt := execCount_set st.jobs i s s JobPhase.pending JobPhase.executing s' hj
    have hbound := hinv s'
    simp only [execCount] at hbound ⊢
    rw [if_neg (fun hc => JobPhase.noConfusion hc.2)] at hcnt
    by_cases hss : s' = s
    · subst hss
      rw [if_pos ⟨rfl, rfl⟩] at hcnt
      rw [if_neg hfree] at hbound
      rw [if_pos (Finset.mem_insert_self _ _)]
      omega
    · rw [if_neg (fun hc => hss hc.1.symm)] at hcnt
      by_cases hmem : s' ∈ st.running
      · rw [if_pos (Finset.mem_insert_of_mem hmem)]
        rw [if_pos hmem] at hbound
        omega
      · rw [if_neg (by simp [Finset.mem_insert, hss, hmem])]
        rw [if_neg hmem] at hbound
        omega
  | skip i s hj hbusy =>
    intro s'
    have hcnt := execCount_set st.jobs i s s JobPhase.pending JobPhase.skipped s' hj
    have hbound := hinv s'
    simp only [execCount] at hbound ⊢
    rw [if_neg (fun hc => JobPhase.noConfusion hc.2)] at hcnt
    rw [if_neg (fun hc => JobPhase.noConfusion hc.2)] at hcnt
    omega
  | finish i s threw hj =>
    intro s'
    have hcnt := execCount_set st.jobs i s s JobPhase.executing (JobPhase.finished threw) s' hj
    have hbound := hinv s'
    simp only [execCount] at hbound ⊢
    rw [show (if s = s' ∧ JobPhase.finished threw = JobPhase.executing then 1 else 0) = 0 from
      if_neg (fun hc => JobPhase.noConfusion hc.2)] at hcnt
    by_cases hss : s' = s
    · subst hss
      rw [if_pos ⟨rfl, rfl⟩] at hcnt
      have hb1 : st.jobs.countP
          (fun j => decide (j.1 = s' ∧ j.2 = JobPhase.executing)) ≤ 1 := by
        by_cases hmem : s' ∈ st.running
        · rwa [if_pos hmem] at hbound
        · rw [if_neg hmem] at hbound
          omega
      rw [if_neg (Finset.not_mem_erase _ _)]
      omega
    · rw [if_neg (fun hc => hss hc.1.symm)] at hcnt
      by_cases hmem : s' ∈ st.running
      · rw [if_pos (Finset.mem_erase.mpr ⟨hss, hmem⟩)]
        rw [if_pos hmem] at hbound
        omega
      · rw [if_neg (fun hc => hmem (Finset.mem_erase.mp hc).2)]
        rw [if_neg hmem] at hbound
        omega

/-! ## Claim theorems: event writer and ingest worker (C1, C5, C6) -/

/-- C5: `appendEvent` first inserts into the event log and then
best-effort publishes the new id on the bus: on insert failure the error
propagates and no publish is attempted; on insert success the
fully-materialized persisted event is returned whatever the publish
outcome, the publish carries the new id on the "events:new" channel, and a
publish failure only adds a logged warning. -/
theorem c5_append_event_contract :
    (∀ (e : String) (pubOk : Bool),
        appendEvent (Except.error e) pubOk = ([WriterEff.insertAttempt], Except.error e))
    ∧ (∀ (ev : EventRow) (pubOk : Bool), (appendEvent (Except.ok ev) pubOk).2 = Except.ok ev)
    ∧ (∀ (ev : EventRow) (pubOk : Bool), (appendEvent (Except.ok ev) pubOk).1.take 2 =
        [WriterEff.insertAttempt,
          WriterEff.publish NEW_EVENTS_CHANNEL (publishNewEventMessage ev.id)])
    ∧ (∀ ev : EventRow, (appendEvent (Except.ok ev) false).1 =
        [WriterEff.insertAttempt,
          WriterEff.publish NEW_EVENTS_CHANNEL (publishNewEventMessage ev.id),
          WriterEff.logPublishWarn]) := by
  refine ⟨fun e pubOk => rfl, fun ev pubOk => ?_, fun ev pubOk => ?_, fun ev => rfl⟩
  · cases pubOk <;> rfl
  · cases pubOk <;> rfl

/-- C1: for an ingest job run that executes the adapter, the checkpoint is
upserted with the adapter's `next_state` iff every event-log insert of the
returned events succeeded; on any insert failure no upsert happens and the
stored state is unchanged, while every successfully inserted event (also
those before the failure) is persisted. -/
theorem c1_checkpoint_advancement (sourceId : EventSources) (inp : IngestJobInput)
    (events : List SourceEvent) (nextState : Option String)
    (hA : inp.adapterPresent = true)
    (hF : sourceId ∉ inp.running)
    (hR : inp.runResult = Except.ok (events, nextState)) :
    ((processJob sourceId inp).upserted = some nextState ↔
        ∀ j, j < events.length → inp.insertOk j = true)
    ∧ ((¬ ∀ j, j < events.length → inp.insertOk j = true) →
        (processJob sourceId inp).upserted = none
        ∧ (processJob sourceId inp).checkpoint = inp.checkpoint)
    ∧ ((∀ j, j < events.length → inp.insertOk j = true) →
        (processJob sourceId inp).checkpoint = nextState)
    ∧ (∀ j, (h : j < events.length) → inp.insertOk j = true →
        events[j] ∈ (processJob sourceId inp).inserted) := by
  have hunfold : processJob sourceId inp =
      { threw := false, running := (insert sourceId inp.running).erase sourceId,
        checkpoint := if (insertLoop inp.insertOk 0 events).2 then nextState else inp.checkpoint,
        upserted := if (insertLoop inp.insertOk 0 events).2 then some nextState else none,
        inserted := (insertLoop inp.insertOk 0 events).1, ranAdapter := true } := by
    rw [processJob, hA, hR]
    simp [hF]
  have hup : (processJob sourceId inp).upserted =
      if (insertLoop inp.insertOk 0 events).2 then some nextState else none := by
    rw [hunfold]
  have hcp : (processJob sourceId inp).checkpoint =
      if (insertLoop inp.insertOk 0 events).2 then nextState else inp.checkpoint := by
    rw [hunfold]
  have hins : (processJob sourceId inp).inserted = (insertLoop inp.insertOk 0 events).1 := by
    rw [hunfold]
  have hall : ((insertLoop inp.insertOk 0 events).2 = true) ↔
      ∀ j, j < events.length → inp.insertOk j = true := by
    rw [insertLoop_all]
    constructor
    · intro h j hj
      simpa using h j hj
    · intro h j hj
      simpa using h j hj
  refine ⟨?_, ?_, ?_, ?_⟩
  · rw [hup]
    by_cases hb : (insertLoop inp.insertOk 0 events).2 = true
    · rw [if_pos hb]
      simp only [Option.some_inj]
      exact ⟨fun _ => hall.mp hb, fun _ => trivial⟩
    · rw [if_neg hb]
      constructor
      · intro hcontra
        exact absurd hcontra (by simp)
      · intro hdoes
        exact absurd (hall.mpr hdoes) hb
  · intro hnot
    have hb : (insertLoop inp.insertOk 0 events).2 = false := by
      cases hx : (insertLoop inp.insertOk 0 events).2 with
      | false => rfl
      | true => exact absurd (hall.mp hx) hnot
    rw [hup, hcp, hb]
    simp
  · intro hdoes
    rw [hcp, hall.mpr hdoes]
    simp
  · intro j hj hok
    rw [hins]
    have := insertLoop_mem inp.insertOk events 0 j hj (by simpa using hok)
    simpa using this

/-- Witness for C1: a run returning one event whose insert succeeds
advances the checkpoint to the returned `next_state`. -/
theorem c1_checkpoint_advancement_witness :
    (processJob EventSources.safekoreaSms
        ⟨true, ∅, none, Except.ok ([sampleSourceEvent], some "s1"), fun _ => true⟩).checkpoint
      = some "s1" :=
  (c1_checkpoint_advancement EventSources.safekoreaSms
      ⟨true, ∅, none, Except.ok ([sampleSourceEvent], some "s1"), fun _ => true⟩
      [sampleSourceEvent] (some "s1") rfl (Finset.not_mem_empty _) rfl).2.2.1
    (fun j hj => rfl)

/-- C6: single-flight per source on one worker.  Along every schedule of
guard/run/finish steps from an invariant state, at most one execution per
source id is in-flight; a job arriving while its source id is in the
running set returns as a no-op without consulting the adapter outcome; and
the guard set is restored when `processJob` returns, also when the adapter
run throws. -/
theorem c6_single_flight :
    (∀ st st' : WorkerState, WorkerInv st → Relation.ReflTransGen WorkerStep st st' →
        ∀ s, execCount st' s ≤ 1)
    ∧ (∀ (sourceId : EventSources) (inp : IngestJobInput),
        inp.adapterPresent = true → sourceId ∈ inp.running →
        processJob sourceId inp = ingestNoop inp)
    ∧ (∀ (sourceId : EventSources) (inp : IngestJobInput),
        (processJob sourceId inp).running = inp.running) := by
  refine ⟨?_, ?_, ?_⟩
  · intro st st' hinv hrtg
    have hinv' : WorkerInv st' := by
      induction hrtg with
      | refl => exact hinv
      | tail hab hbc ih => exact workerStep_preserves_inv _ _ hbc ih
    intro s
    have hb := hinv' s
    by_cases hmem : s ∈ st'.running
    · rwa [if_pos hmem] at hb
    · rw [if_neg hmem] at hb
      omega
  · intro sourceId inp hA hmem
    rw [processJob, hA]
    simp [hmem]
  · intro sourceId inp
    rw [processJob]
    by_cases hA : inp.adapterPresent
    · by_cases hmem : sourceId ∈ inp.running
      · simp [hA, hmem, ingestNoop]
      · cases hrr : inp.runResult with
        | error e => simp [hA, hmem, hrr, Finset.erase_insert hmem]
        | ok pair =>
          cases pair with
          | mk events nextState => simp [hA, hmem, hrr, Finset.erase_insert hmem]
    · simp [hA, ingestNoop]

/-- Witness for C6: a two-job schedule where the first job enters and the
invariant theorem bounds the in-flight count; plus the guard no-op at a
busy source with a throwing adapter outcome. -/
theorem c6_single_flight_witness :
    execCount ⟨{EventSources.safekoreaSms}, [(EventSources.safekoreaSms, JobPhase.executing)]⟩
        EventSources.safekoreaSms ≤ 1
    ∧ processJob EventSources.safekoreaSms
        ⟨true, {EventSources.safekoreaSms}, none, Except.error (), fun _ => true⟩ =
      ingestNoop ⟨true, {EventSources.safekoreaSms}, none, Except.error (), fun _ => true⟩ := by
  constructor
  · refine c6_single_flight.1 ⟨∅, [(EventSources.safekoreaSms, JobPhase.pending)]⟩ _ ?_
      (Relation.ReflTransGen.single ?_) EventSources.safekoreaSms
    · intro s
      simp [execCount, WorkerInv]
    · exact WorkerStep.enter ⟨∅, [(EventSources.safekoreaSms, JobPhase.pending)]⟩ 0
        EventSources.safekoreaSms rfl (Finset.not_mem_empty _)
  · exact c6_single_flight.2.1 EventSources.safekoreaSms _ rfl (Finset.mem_singleton_self _)

/-! ## Lemmas: bit strings versus big-endian integer values -/

theorem bitsToNat_foldl (acc : Nat) (bits : List Bool) :
    bits.foldl (fun a b => 2 * a + (if b then 1 else 0)) acc
      = acc * 2 ^ bits.length + bitsToNat bits := by
  induction bits generalizing acc with
  | nil => simp [bitsToNat]
  | cons b bs ih =>
    simp only [bitsToNat, List.foldl_cons, List.length_cons]
    rw [ih, ih, pow_succ]
    ring

theorem bitsToNat_append (xs ys : List Bool) :
    bitsToNat (xs ++ ys) = bitsToNat xs * 2 ^ ys.length + bitsToNat ys := by
  simp only [bitsToNat, List.foldl_append]
  exact bitsToNat_foldl _ ys

theorem bitsToNat_lt (bits : List Bool) : bitsToNat bits < 2 ^ bits.length := by
  induction bits with
  | nil => simp [bitsToNat]
  | cons b bs ih =>
    have hcons : bitsToNat (b :: bs)
        = (if b then 1 else 0) * 2 ^ bs.length + bitsToNat bs := by
      rw [show (b :: bs) = [b] ++ bs from rfl, bitsToNat_append]
      cases b
      · norm_num [show bitsToNat [false] = 0 from rfl]
      · norm_num [show bitsToNat [true] = 1 from rfl]
    rw [hcons, List.length_cons, pow_succ]
    cases b <;> simp <;> linarith

set_option maxRecDepth 8192 in
theorem bitsToNat_byteToBits : ∀ b : Fin 256, bitsToNat (byteToBits b) = b.val := by
  decide

theorem byteToBits_length (b : Fin 256) : (byteToBits b).length = 8 := rfl

theorem bytesToBitString_length (bs : List (Fin 256)) :
    (bytesToBitString bs).length = 8 * bs.length := by
  induction bs with
  | nil => rfl
  | cons b rest ih =>
    simp only [bytesToBitString, List.map_cons, List.flatten_cons,
      List.length_append, List.length_cons] at *
    rw [byteToBits_length, ih]
    ring

theorem beBytesToNat_foldl (acc : Nat) (bs : List (Fin 256)) :
    bs.foldl (fun a b => 256 * a + b.val) acc
      = acc * 256 ^ bs.length + beBytesToNat bs := by
  induction bs generalizing acc with
  | nil => simp [beBytesToNat]
  | cons b rest ih =>
    simp only [beBytesToNat, List.foldl_cons, List.length_cons]
    rw [ih, ih, pow_succ]
    ring

theorem beBytesToNat_eq_bitsToNat (bs : List (Fin 256)) :
    beBytesToNat bs = bitsToNat (bytesToBitString bs) := by
  induction bs with
  | nil => rfl
  | cons b rest ih =>
    calc beBytesToNat (b :: rest)
        = (256 * 0 + b.val) * 256 ^ rest.length + beBytesToNat rest := by
          simp only [beBytesToNat, List.foldl_cons]
          exact beBytesToNat_foldl _ rest
      _ = b.val * 2 ^ (8 * rest.length) + bitsToNat (bytesToBitString rest) := by
          rw [ih, pow_mul]
          norm_num
      _ = bitsToNat (bytesToBitString (b :: rest)) := by
          rw [show bytesToBitString (b :: rest)
                = byteToBits b ++ bytesToBitString rest from rfl,
            bitsToNat_append, bitsToNat_byteToBits, bytesToBitString_length]

theorem bitsToNat_slice (bits : List Bool) (s e : Nat) (hse : s ≤ e)
    (he : e ≤ bits.length) :
    bitsToNat ((bits.drop s).take (e - s))
      = bitsToNat bits / 2 ^ (bits.length - e) % 2 ^ (e - s) := by
  have hC : ((bits.drop s).take (e - s)).length = e - s := by
    rw [List.length_take, List.length_drop]
    omega
  have hD : (bits.drop e).length = bits.length - e := List.length_drop e bits
  have hsplit : bits = bits.take s ++ ((bits.drop s).take (e - s) ++ bits.drop e) := by
    conv_lhs => rw [← List.take_append_drop s bits]
    congr 1
    conv_lhs => rw [← List.take_append_drop (e - s) (bits.drop s)]
    congr 1
    rw [List.drop_drop]
    congr 1
    omega
  have hval : bitsToNat bits
      = bitsToNat (bits.take s) * 2 ^ ((e - s) + (bits.length - e))
        + (bitsToNat ((bits.drop s).take (e - s)) * 2 ^ (bits.length - e)
           + bitsToNat (bits.drop e)) := by
    conv_lhs => rw [hsplit]
    rw [bitsToNat_append, bitsToNat_append, List.length_append, hC, hD]
  have hCb : bitsToNat ((bits.drop s).take (e - s)) < 2 ^ (e - s) := by
    have h := bitsToNat_lt ((bits.drop s).take (e - s))
    rwa [hC] at h
  have hDb : bitsToNat (bits.drop e) < 2 ^ (bits.length - e) := by
    have h := bitsToNat_lt (bits.drop e)
    rwa [hD] at h
  rw [hval]
  have h1 : bitsToNat (bits.take s) * 2 ^ ((e - s) + (bits.length - e))
        + (bitsToNat ((bits.drop s).take (e - s)) * 2 ^ (bits.length - e)
           + bitsToNat (bits.drop e))
      = bitsToNat (bits.drop e)
        + (bitsToNat (bits.take s) * 2 ^ (e - s)
           + bitsToNat ((bits.drop s).take (e - s))) * 2 ^ (bits.length - e) := by
    rw [pow_add]
    ring
  rw [h1, Nat.add_mul_div_right _ _ (pow_pos (by norm_num) _),
    Nat.div_eq_of_lt hDb, zero_add,
    Nat.add_comm (bitsToNat (bits.take s) * 2 ^ (e - s))
      (bitsToNat ((bits.drop s).take (e - s))),
    Nat.add_mul_mod_self_right, Nat.mod_eq_of_lt hCb]

theorem bitsToNat_getD (bits : List Bool) (j : Nat) (hj : j < bits.length) :
    bits.getD j false = (bitsToNat bits).testBit (bits.length - 1 - j) := by
  have hslice := bitsToNat_slice bits j (j + 1) (by omega) (by omega)
  have hone : (bits.drop j).take ((j + 1) - j) = [bits.getD j false] := by
    cases hd : bits.drop j with
    | nil =>
      exfalso
      have hlen := congrArg List.length hd
      rw [List.length_drop] at hlen
      simp at hlen
      omega
    | cons x xs =>
      have hx : bits[j]? = some x := by
        have h0 : (bits.drop j)[0]? = bits[j + 0]? := List.getElem?_drop bits j 0
        rw [hd] at h0
        simpa using h0.symm
      have hgd : bits.getD j false = x := by
        rw [List.getD_eq_getElem?_getD, hx]
        rfl
      simp [show j + 1 - j = 1 from by omega, hgd, hx]
  rw [hone] at hslice
  have hb : bitsToNat [bits.getD j false] = if bits.getD j false then 1 else 0 := by
    simp [bitsToNat]
  rw [hb] at hslice
  have harith : bits.length - (j + 1) = bits.length - 1 - j := by omega
  rw [harith, show (j + 1) - j = 1 from by omega, pow_one] at hslice
  rw [Nat.testBit_to_div_mod]
  cases hbv : bits.getD j false <;> rw [hbv] at hslice <;> simp [← hslice]

theorem parseBitsInt_eq_bitField (bits : List Bool) (s e : Nat) (hse : s < e)
    (he : e ≤ bits.length) :
    parseBitsInt bits s e = some (bitField (bitsToNat bits) bits.length s e) := by
  unfold parseBitsInt bitField
  rw [if_neg (by omega)]
  have hC : ((bits.drop s).take (e - s)).length = e - s := by
    rw [List.length_take, List.length_drop]
    omega
  have hne : (bits.drop s).take (e - s) ≠ [] := by
    intro hc
    rw [hc] at hC
    simp at hC
    omega
  rw [if_neg hne, bitsToNat_slice bits s e (by omega) he]

theorem maskBits_eq_testBits (bits : List Bool) (h : bits.length = 120) :
    (bits.drop 99).take 17
      = (List.range 17).map (fun i => (bitsToNat bits).testBit (20 - i)) := by
  apply List.ext_getElem
  · rw [List.length_take, List.length_drop, List.length_map, List.length_range]
    omega
  · intro i hi1 hi2
    rw [List.length_take, List.length_drop, h] at hi1
    have hi : i < 17 := by omega
    rw [List.getElem_take, List.getElem_drop, List.getElem_map, List.getElem_range]
    have hji : 99 + i < bits.length := by omega
    have hgd : bits.getD (99 + i) false = bits[99 + i] := List.getD_eq_getElem bits false hji
    rw [← hgd, bitsToNat_getD bits (99 + i) hji, h,
      show 120 - 1 - (99 + i) = 20 - i from by omega]

theorem parseEarthquakeInfo_unfold (now : Int) (bytes : List (Fin 256))
    (h : 75 ≤ bytes.length) :
    parseEarthquakeInfo now bytes = some
      { eqkId := (parseBitsInt (bytesToBitString ((bytes.drop (bytes.length - 75)).take 15)) 69 95).map
          (fun r => "20" ++ toString r),
        magnitude := (parseBitsInt (bytesToBitString ((bytes.drop (bytes.length - 75)).take 15)) 20 27).map
          (fun r => (r : Rat) / 10),
        depthKm := (parseBitsInt (bytesToBitString ((bytes.drop (bytes.length - 75)).take 15)) 27 37).map
          (fun r => (r : Rat) / 10),
        intensity := parseBitsInt (bytesToBitString ((bytes.drop (bytes.length - 75)).take 15)) 95 99,
        maxAreas := parseMaxAreas
          (((bytesToBitString ((bytes.drop (bytes.length - 75)).take 15)).drop 99).take 17),
        occurredAt := (parseBitsInt (bytesToBitString ((bytes.drop (bytes.length - 75)).take 15)) 37 69).bind
          (fun r => parseUnixTimeToIso now (r : Int)),
        infoText := decodeInfoText ((bytes.drop (bytes.length - 75)).drop 15),
        latitude := (parseBitsInt (bytesToBitString ((bytes.drop (bytes.length - 75)).take 15)) 0 10).map
          (fun r => 30 + (r : Rat) / 100),
        longitude := (parseBitsInt (bytesToBitString ((bytes.drop (bytes.length - 75)).take 15)) 10 20).map
          (fun r => 124 + (r : Rat) / 100),
        rawUnixTime := parseBitsInt (bytesToBitString ((bytes.drop (bytes.length - 75)).take 15)) 37 69 } := by
  have h120 : (bytesToBitString ((bytes.drop (bytes.length - 75)).take 15)).length = 120 := by
    rw [bytesToBitString_length, List.length_take, List.length_drop]
    omega
  unfold parseEarthquakeInfo
  rw [if_neg (by omega)]
  simp only [if_neg (show ¬ (bytesToBitString ((bytes.drop (bytes.length - 75)).take 15)).length < 116
    from by omega)]

/-- C9: For every binary frame holding a full 75-byte info block, the
decoder reads the 120-bit trailer (the block's first 15 bytes, as a
big-endian value `v`) at bit offsets lat `[0:10)`, lon `[10:20)`, mag
`[20:27)`, depth `[27:37)`, unix-seconds `[37:69)`, eqk-id `[69:95)`,
intensity `[95:99)` and the 17-bit affected-regions mask `[99:116)`
(indexing the fixed 17-element `AREA_NAMES` list through `parseMaxAreas`),
decoding latitude = 30 + raw/100, longitude = 124 + raw/100,
magnitude = raw/10 and depth\_km = raw/10. -/
theorem c9_trailer_bit_layout (now : Int) (bytes : List (Fin 256)) (v : Nat)
    (hlen : 75 ≤ bytes.length)
    (hv : v = beBytesToNat ((bytes.drop (bytes.length - 75)).take 15)) :
    ∃ info, parseEarthquakeInfo now bytes = some info
      ∧ info.latitude = some (30 + (bitField v 120 0 10 : Rat) / 100)
      ∧ info.longitude = some (124 + (bitField v 120 10 20 : Rat) / 100)
      ∧ info.magnitude = some ((bitField v 120 20 27 : Rat) / 10)
      ∧ info.depthKm = some ((bitField v 120 27 37 : Rat) / 10)
      ∧ info.rawUnixTime = some (bitField v 120 37 69)
      ∧ info.eqkId = some ("20" ++ toString (bitField v 120 69 95))
      ∧ info.intensity = some (bitField v 120 95 99)
      ∧ info.maxAreas
          = parseMaxAreas ((List.range 17).map (fun i => v.testBit (20 - i))) := by
  have h120 : (bytesToBitString ((bytes.drop (bytes.length - 75)).take 15)).length = 120 := by
    rw [bytesToBitString_length, List.length_take, List.length_drop]
    omega
  have hvb : v = bitsToNat (bytesToBitString ((bytes.drop (bytes.length - 75)).take 15)) := by
    rw [hv, beBytesToNat_eq_bitsToNat]
  have hfield : ∀ s e : Nat, s < e → e ≤ 120 →
      parseBitsInt (bytesToBitString ((bytes.drop (bytes.length - 75)).take 15)) s e
        = some (bitField v 120 s e) := by
    intro s e hse he
    rw [parseBitsInt_eq_bitField _ s e hse (by omega), h120, hvb]
  refine ⟨_, parseEarthquakeInfo_unfold now bytes hlen, ?_, ?_, ?_, ?_, ?_, ?_, ?_, ?_⟩
  · rw [hfield 0 10 (by omega) (by omega)]
    rfl
  · rw [hfield 10 20 (by omega) (by omega)]
    rfl
  · rw [hfield 20 27 (by omega) (by omega)]
    rfl
  · rw [hfield 27 37 (by omega) (by omega)]
    rfl
  · exact hfield 37 69 (by omega) (by omega)
  · rw [hfield 69 95 (by omega) (by omega)]
    rfl
  · exact hfield 95 99 (by omega) (by omega)
  · rw [maskBits_eq_testBits (bytesToBitString ((bytes.drop (bytes.length - 75)).take 15)) h120,
      ← hvb]

theorem c9_trailer_bit_layout_witness :
    ∃ info, parseEarthquakeInfo 0 (List.replicate 75 (0 : Fin 256)) = some info
      ∧ info.latitude = some (30 + (bitField 0 120 0 10 : Rat) / 100)
      ∧ info.longitude = some (124 + (bitField 0 120 10 20 : Rat) / 100)
      ∧ info.magnitude = some ((bitField 0 120 20 27 : Rat) / 10)
      ∧ info.depthKm = some ((bitField 0 120 27 37 : Rat) / 10)
      ∧ info.rawUnixTime = some (bitField 0 120 37 69)
      ∧ info.eqkId = some ("20" ++ toString (bitField 0 120 69 95))
      ∧ info.intensity = some (bitField 0 120 95 99)
      ∧ info.maxAreas
          = parseMaxAreas ((List.range 17).map (fun i => (0 : Nat).testBit (20 - i))) :=
  c9_trailer_bit_layout 0 (List.replicate 75 (0 : Fin 256)) 0 (by decide) (by decide)

/-- C7: Over the default header length (4 bytes, so the header carries at
least 3 bits whenever the frame is nonempty enough), `parsePhase` decodes
bit 1 = 0 to phase 1, bit 1 = 1 with bit 2 = 0 to phase 2 and bit 2 = 1 to
phase 3; and every fetched frame whose decoded phase is below 2 makes
`run` yield zero events and an unchanged checkpoint state, regardless of
the trailer content. -/
theorem c7_phase_gating :
    (∀ (bytes : List (Fin 256)) (hdr : Nat),
      3 ≤ (bytesToBitString (bytes.take hdr)).length →
      parsePhase bytes hdr =
        (if (bytesToBitString (bytes.take hdr)).getD 1 false = false then 1
         else if (bytesToBitString (bytes.take hdr)).getD 2 false = false then 2
         else 3))
    ∧ (∀ (offs : Rat) (now : Int) (r : PewsResponse) (state : Option String),
        parsePhase r.bytes 4 < 2 →
        (pewsRun offs now (some r) state).events = []
        ∧ (pewsRun offs now (some r) state).nextState = state) := by
  constructor
  · intro bytes hdr h3
    unfold parsePhase
    rw [if_neg (by omega)]
    cases hb1 : (bytesToBitString (bytes.take hdr)).getD 1 false
      <;> cases hb2 : (bytesToBitString (bytes.take hdr)).getD 2 false
      <;> simp [hb1, hb2]
  · intro offs now r state hphase
    by_cases hok : r.ok
    · by_cases hsmall : r.bytes.length < 4 + 75
      · constructor <;> simp [pewsRun, hok, hsmall]
      · constructor <;> simp [pewsRun, hok, hsmall, hphase]
    · constructor <;> simp [pewsRun, hok]

theorem c7_phase_gating_witness :
    parsePhase (List.replicate 79 (0 : Fin 256)) 4 =
      (if (bytesToBitString ((List.replicate 79 (0 : Fin 256)).take 4)).getD 1 false = false
       then 1
       else if (bytesToBitString ((List.replicate 79 (0 : Fin 256)).take 4)).getD 2 false = false
       then 2
       else 3)
    ∧ (pewsRun 1000 0 (some ⟨true, ⟨none, none⟩, List.replicate 79 (0 : Fin 256)⟩) none).events = []
    ∧ (pewsRun 1000 0 (some ⟨true, ⟨none, none⟩, List.replicate 79 (0 : Fin 256)⟩) none).nextState = none :=
  ⟨c7_phase_gating.1 (List.replicate 79 (0 : Fin 256)) 4 (by decide),
   c7_phase_gating.2 1000 0 ⟨true, ⟨none, none⟩, List.replicate 79 (0 : Fin 256)⟩ none (by decide)⟩

/-- C8: The snapshot-hash adapter skips whenever the normalized text of
the fetched content equals the stored checkpoint state (zero events,
unchanged state); consequently, a second run on byte-identical fetched
content after any first run emits no events and leaves the checkpoint of
the first run unchanged. -/
theorem c8_snapshot_hash_dedup :
    (∀ (html extracted : String) (state : Option String),
      extractMicroEarthquakeText html = some extracted →
      state = some (normalizeMicroText extracted) →
      microRun (some html) state = ([], state))
    ∧ (∀ (html : Option String) (state : Option String),
        microRun html (microRun html state).2 = ([], (microRun html state).2)) := by
  constructor
  · intro html extracted state hext hstate
    subst hstate
    simp only [microRun, hext]
    by_cases hn : normalizeMicroText extracted = ""
    · simp [hn]
    · simp [hn]
  · intro html state
    cases html with
    | none => simp [microRun]
    | some h =>
      cases hext : extractMicroEarthquakeText h with
      | none => simp [microRun, hext]
      | some extracted =>
        by_cases hn : normalizeMicroText extracted = ""
        · simp [microRun, hext, hn]
        · by_cases hskip : state.getD "" ≠ "" ∧ normalizeMicroText extracted = state.getD ""
          · simp [microRun, hext, hn, hskip]
          · simp [microRun, hext, hn, hskip]

theorem c8_snapshot_hash_dedup_witness :
    microRun (some "<p>hi</p>") (some (normalizeMicroText "hi"))
      = ([], some (normalizeMicroText "hi")) :=
  c8_snapshot_hash_dedup.1 "<p>hi</p>" "hi" (some (normalizeMicroText "hi")) (by decide) rfl

end DisasterFeed
